import Mathlib

/-!
# ghe-issue-viewer: diff view, comment filter, list-page state

A shallow embedding of pieces of the front end:

* `DiffView` of `frontend/src/pages/PullRequestDetail.jsx`: the component that
  turns the `patch` of a changed file into table rows;
* `filterComments` of `frontend/src/components/Markdown.jsx`: the function that
  removes HTML comments from markdown text before it is rendered;
* the page and filter of `frontend/src/pages/PullRequestList.jsx`, read from
  and written to the query parameters of the address;
* the status badge of a pull request and the plural of the counts;
* the fetches of the list page as a machine of events (`fetchPRs`), the task-list
  items of `Markdown.jsx`, and `formatDate` of
  `frontend/src/components/Layout.jsx`.

JavaScript strings are modelled as `List Char`.  Every operation used here
(`startsWith`, `split`, the regular expression of `filterComments`) works
position by position and compares only against ASCII characters, so the result
does not depend on how a position is encoded.
-/

namespace GheIssueViewer

/-! ## String operations -/

/-- JavaScript `s.startsWith(pre)`. -/
def startsWith : List Char → List Char → Bool
  | _, [] => true
  | [], _ :: _ => false
  | c :: cs, p :: ps => c == p && startsWith cs ps

/-- JavaScript `s.split(sep)` for a separator of one character: the
segments between the separators, empty ones included, so the result is never
empty. -/
def split (sep : Char) : List Char → List (List Char)
  | [] => [[]]
  | c :: cs =>
    if c = sep then [] :: split sep cs
    else
      match split sep cs with
      | [] => [[c]]
      | l :: ls => (c :: l) :: ls

/-- JavaScript `parts.join(sep)` for a separator of one character. -/
def join (sep : Char) : List (List Char) → List Char
  | [] => []
  | [l] => l
  | l :: m :: ls => l ++ sep :: join sep (m :: ls)

/-! ## The diff view (`PullRequestDetail.jsx`, `DiffView`) -/

/-- The four kinds of diff line of the data model. -/
inductive Kind where
  | Addition
  | Deletion
  | HunkHeader
  | Context
  deriving DecidableEq

/-- A changed file as the pull-request endpoint delivers it; `patch` is
optional. -/
structure FileDiff where
  filename : String
  status : String
  additions : Nat
  deletions : Nat
  patch : Option (List Char)
  deriving DecidableEq

/-- One `<tr>` of the diff table, with everything the callback of `lines.map`
computes for a line. -/
structure Row where
  /-- React key of the row, `idx` -/
  key : Nat
  isAddition : Bool
  isDeletion : Bool
  isHunk : Bool
  bgColor : String
  textColor : String
  /-- First cell, `!isHunk && idx + 1`: nothing for a hunk header. -/
  number : Option Nat
  /-- Second cell, `isAddition && <Plus/>`. -/
  plusIcon : Bool
  /-- Second cell, `isDeletion && <Minus/>`. -/
  minusIcon : Bool
  /-- Third cell, the line itself. -/
  text : List Char
  deriving DecidableEq

/-- The callback of `lines.map((line, idx) => ...)`. -/
def row (line : List Char) (idx : Nat) : Row :=
  let isAddition := startsWith line ['+'] && !startsWith line ['+', '+', '+']
  let isDeletion := startsWith line ['-'] && !startsWith line ['-', '-', '-']
  let isHunk := startsWith line ['@', '@']
  let colors : String × String :=
    if isAddition then ("#dafbe1", "#1a7f37")
    else if isDeletion then ("#ffebe9", "#cf222e")
    else if isHunk then ("#ddf4ff", "#0969da")
    else ("transparent", "#1f2328")
  { key := idx
    isAddition := isAddition
    isDeletion := isDeletion
    isHunk := isHunk
    bgColor := colors.1
    textColor := colors.2
    number := if isHunk then none else some (idx + 1)
    plusIcon := isAddition
    minusIcon := isDeletion
    text := line }

/-- The kind a row is displayed as: the branch of the `if (isAddition) ... else
if (isDeletion) ... else if (isHunk) ...` chain that chose its colours. -/
def Row.kind (r : Row) : Kind :=
  if r.isAddition then Kind.Addition
  else if r.isDeletion then Kind.Deletion
  else if r.isHunk then Kind.HunkHeader
  else Kind.Context

/-- The call `lines.map(callback)`, from index `idx` on. -/
def mapRows : Nat → List (List Char) → List Row
  | _, [] => []
  | idx, l :: ls => row l idx :: mapRows (idx + 1) ls

/-- The rows of the table for a patch: `file.patch.split('\n')` mapped through
the callback. -/
def diffRows (patch : List Char) : List Row :=
  mapRows 0 (split '\n' patch)

/-- What `DiffView` renders below the header bar of a file. -/
inductive DiffBody where
  /-- The centred notice of the first `return`. -/
  | message (text : String)
  /-- The `<table>` of the second `return`. -/
  | table (rows : List Row)
  /-- The second `return` while `collapsed` is set: header bar only. -/
  | hidden
  deriving DecidableEq

/-- The test `!file.patch`: true for an absent patch and for the empty string. -/
def patchMissing : Option (List Char) → Bool
  | none => true
  | some [] => true
  | some (_ :: _) => false

/-- The component `DiffView`; `collapsed` is its state, `false` when the
component is first shown. -/
def DiffView (file : FileDiff) (collapsed : Bool) : DiffBody :=
  if patchMissing file.patch then
    DiffBody.message "Binary file or diff too large to display"
  else
    let lines := split '\n' (file.patch.getD [])
    if !collapsed then DiffBody.table (mapRows 0 lines) else DiffBody.hidden

/-- The diff lines a rendering shows. -/
def DiffBody.rows : DiffBody → List Row
  | DiffBody.table rows => rows
  | _ => []

/-- The classification rule as the specification words it, first match wins:
hunk header, then addition, then deletion, otherwise context. -/
def specKind (line : List Char) : Kind :=
  if startsWith line ['@', '@'] then Kind.HunkHeader
  else if startsWith line ['+'] && !startsWith line ['+', '+', '+'] then Kind.Addition
  else if startsWith line ['-'] && !startsWith line ['-', '-', '-'] then Kind.Deletion
  else Kind.Context

/-! ## The comment filter (`Markdown.jsx`, `filterComments`) -/

/-- What `[\s\S]*?-->` consumes: everything up to and including the first
`-->` at or after the current position.  The result is the text after that
`-->`, or `none` when there is no `-->`. -/
def afterClose : List Char → Option (List Char)
  | [] => none
  | c :: cs =>
    if startsWith (c :: cs) ['-', '-', '>'] then some ((c :: cs).drop 3)
    else afterClose cs

/-- One attempt of the regular expression `<!--[\s\S]*?-->` at the start of
`s`: the text after the match, or `none` when it does not match there. -/
def matchComment (s : List Char) : Option (List Char) :=
  if startsWith s ['<', '!', '-', '-'] then afterClose (s.drop 4) else none

/-- The loop of `content.replace(re, '')` for the global expression `re`: at each
position, a match is dropped and the scan goes on after it; otherwise the
character is kept and the scan moves one position on.  `fuel` bounds the number
of steps; `s.length` is always enough (`replaceComments_fuel`). -/
def replaceComments : Nat → List Char → List Char
  | _, [] => []
  | 0, s => s
  | fuel + 1, c :: cs =>
    match matchComment (c :: cs) with
    | some rest => replaceComments fuel rest
    | none => c :: replaceComments fuel cs

/-- The call `content.replace(re, '')`: the loop with fuel for every position of
`content`. -/
def stripComments (content : List Char) : List Char :=
  replaceComments content.length content

/-- The function `filterComments`; `none` stands for `null` and `undefined`.
`!content` holds for those and for the empty string. -/
def filterComments (content : Option (List Char)) : List Char :=
  match content with
  | none => []
  | some [] => []
  | some (c :: cs) => stripComments (c :: cs)

/-! ## Numbers (`parseInt`, `Number.prototype.toString`)

The Numbers met here are page numbers, counts and time values.  A Number is a
double: an integer of magnitude below `2 ^ 53 = 9007199254740992` is a Number
as it stands, a larger one is rounded to the nearest double, and beyond the
largest double it becomes `Infinity`.  `parseInt` rounds in that way, and
`toString` prints a Number of magnitude `2 ^ 53` or more with the shortest
digits that read back as the same double, in exponent notation from `10 ^ 21`
on.
-/

/-- A Number that is `NaN`, an integer or infinite.  `int v` is the integer `v`,
used for magnitudes below `2 ^ 53`, where every integer is a double; `big` is a
double of magnitude `m` with `2 ^ 53 ≤ m`; `inf` is `Infinity` or, with the
flag set, `-Infinity`.  The two zeros are not told apart. -/
inductive JSNum where
  | nan
  | int (v : Int)
  | big (negative : Bool) (m : Nat)
  | inf (negative : Bool)
  deriving DecidableEq

/-- How often `m` must be halved to come below `2 ^ 53`; `fuel` bounds the
count. -/
def halvings : Nat → Nat → Nat
  | 0, _ => 0
  | fuel + 1, m => if m < 9007199254740992 then 0 else halvings fuel (m / 2) + 1

/-- The double nearest to the natural number `m`, ties to the even significand;
`none` when that is beyond the largest double, `(2 ^ 53 - 1) * 2 ^ 971`. -/
def roundToDouble (m : Nat) : Option Nat :=
  if m < 9007199254740992 then some m
  else
    let e := halvings m m
    let q := m / 2 ^ e
    let r := m % 2 ^ e
    let half := 2 ^ (e - 1)
    let q' := if half < r ∨ (r = half ∧ q % 2 = 1) then q + 1 else q
    if 972 ≤ e ∨ (971 ≤ e ∧ q' = 9007199254740992) then none else some (q' * 2 ^ e)

/-- The Number an integer becomes: itself below `2 ^ 53`, the nearest double or
an infinity otherwise. -/
def JSNum.ofInt (v : Int) : JSNum :=
  if v.natAbs < 9007199254740992 then JSNum.int v
  else
    match roundToDouble v.natAbs with
    | some m => JSNum.big (decide (v < 0)) m
    | none => JSNum.inf (decide (v < 0))

/-- The value of a finite Number. -/
def JSNum.finite : JSNum → Option Int
  | JSNum.int v => some v
  | JSNum.big negative m => some (if negative then -(m : Int) else (m : Int))
  | _ => none

/-- The test `Number.isSafeInteger`: an integer of magnitude below `2 ^ 53`. -/
def JSNum.isSafeInteger : JSNum → Bool
  | JSNum.int v => decide (v.natAbs < 9007199254740992)
  | _ => false

/-- White space and line terminators, the characters `parseInt` skips at the
start of its argument. -/
def isWhiteSpace (c : Char) : Bool :=
  [0x09, 0x0A, 0x0B, 0x0C, 0x0D, 0x20, 0xA0, 0x1680, 0x2028, 0x2029, 0x202F, 0x205F,
    0x3000, 0xFEFF].contains c.toNat || (0x2000 ≤ c.toNat && c.toNat ≤ 0x200A)

/-- Decimal digits, `0` to `9`. -/
def isDigit (c : Char) : Bool :=
  48 ≤ c.toNat && c.toNat ≤ 57

/-- The value of a decimal digit. -/
def digitValue (c : Char) : Nat :=
  c.toNat - 48

/-- The value of a string of decimal digits, read from the left. -/
def digitsValue (z : List Char) : Nat :=
  z.foldl (fun v c => 10 * v + digitValue c) 0

/-- JavaScript `parseInt(string, 10)`: leading white space is skipped, one
sign is read, then the longest run of decimal digits; without a digit the
result is `NaN`, otherwise the Number nearest to the signed value of the
digits. -/
def parseInt (string : List Char) : JSNum :=
  let s := string.dropWhile isWhiteSpace
  let sign : Int := if startsWith s ['-'] then -1 else 1
  let s := if startsWith s ['+'] || startsWith s ['-'] then s.drop 1 else s
  let z := s.takeWhile isDigit
  if z.isEmpty then JSNum.nan else JSNum.ofInt (sign * digitsValue z)

/-- The character of a decimal digit. -/
def digitChar : Nat → Char
  | 0 => '0'
  | 1 => '1'
  | 2 => '2'
  | 3 => '3'
  | 4 => '4'
  | 5 => '5'
  | 6 => '6'
  | 7 => '7'
  | 8 => '8'
  | _ => '9'

/-- The decimal digits of `n` in front of `acc`, most significant first;
`fuel` bounds the number of digits. -/
def natDigits : Nat → Nat → List Char → List Char
  | 0, _, acc => acc
  | fuel + 1, n, acc =>
    if n / 10 = 0 then digitChar (n % 10) :: acc
    else natDigits fuel (n / 10) (digitChar (n % 10) :: acc)

/-- The decimal numeral of a natural number, without leading zeros. -/
def natToString (n : Nat) : List Char :=
  natDigits (n + 1) n []

/-- The digits `s` of `k` places for which `s * 10 ^ (n - k)` rounds to the
double `x` of `n` places, the one nearest to `x` (the even one of two), if
there is one. -/
def shortestAt (x n k : Nat) : Option Nat :=
  let p := 10 ^ (n - k)
  let lo := x / p
  let hi := lo + 1
  let okLo := roundToDouble (lo * p) = some x
  let okHi := hi < 10 ^ k ∧ roundToDouble (hi * p) = some x
  if okLo ∧ okHi then
    if x - lo * p < hi * p - x then some lo
    else if hi * p - x < x - lo * p then some hi
    else if lo % 2 = 0 then some lo else some hi
  else if okLo then some lo
  else if okHi then some hi
  else none

/-- The search for the least number of places `k`, from `k` upwards, with the
digits found; `fuel` bounds the number of places tried. -/
def shortestFrom : Nat → Nat → Nat → Nat → Nat × Nat
  | 0, x, n, _ => (x, n)
  | fuel + 1, x, n, k =>
    match shortestAt x n k with
    | some s => (s, k)
    | none => shortestFrom fuel x n (k + 1)

/-- The text of the digits `s` of `k` places for a Number of `n` places before
the point: padded with zeros up to 21 places, in exponent notation beyond. -/
def renderDigits (s k n : Nat) : List Char :=
  if n ≤ 21 then natToString s ++ List.replicate (n - k) '0'
  else
    match natToString s with
    | [] => []
    | d :: rest =>
      (if k = 1 then [d] else d :: '.' :: rest) ++ 'e' :: '+' :: natToString (n - 1)

/-- The text of a double of magnitude `2 ^ 53` or more: the shortest digits that
round to it.  The power of ten above it is tried first, as for the double
nearest to `10 ^ 23`, which prints as `1e+23`. -/
def bigToString (x : Nat) : List Char :=
  let n := (natToString x).length
  if roundToDouble (10 ^ n) = some x then renderDigits 1 1 (n + 1)
  else renderDigits (shortestFrom n x n 1).1 (shortestFrom n x n 1).2 n

/-- JavaScript `n.toString()` for the Numbers of `JSNum`. -/
def JSNum.toString : JSNum → List Char
  | JSNum.nan => ['N', 'a', 'N']
  | JSNum.int v => if v < 0 then '-' :: natToString v.natAbs else natToString v.natAbs
  | JSNum.big negative m => if negative then '-' :: bigToString m else bigToString m
  | JSNum.inf negative =>
    if negative then "-Infinity".toList else "Infinity".toList

/-! ## The pull-request list (`PullRequestList.jsx`) -/

/-- The class `\w` of a regular expression without flags: ASCII letters, digits
and the underscore. -/
def isWordChar (c : Char) : Bool :=
  (97 ≤ c.toNat && c.toNat ≤ 122) || (65 ≤ c.toNat && c.toNat ≤ 90) || isDigit c || c == '_'

/-- The first capture group of the leftmost match of `is:(\w+)` in `q`: the
longest run of word characters after the first `is:` that is followed by
one, or `none` when nothing matches. -/
def matchIsWord : List Char → Option (List Char)
  | [] => none
  | c :: cs =>
    let word := ((c :: cs).drop 3).takeWhile isWordChar
    if startsWith (c :: cs) ['i', 's', ':'] && !word.isEmpty then some word
    else matchIsWord cs

/-- The function `parseQueryFilter`; `none` stands for `null`, what
`searchParams.get` returns for a parameter that is not there. -/
def parseQueryFilter (q : Option (List Char)) : List Char :=
  match q with
  | none => "open".toList
  | some [] => "open".toList
  | some (c :: cs) =>
    match matchIsWord (c :: cs) with
    | some word => word
    | none => "open".toList

/-- The function `buildQueryFilter`. -/
def buildQueryFilter (filter : List Char) : List Char :=
  "is:".toList ++ filter

/-- The query parameters of the address, in order. -/
abbrev SearchParams := List (String × List Char)

/-- The call `searchParams.get(name)`: the first value of that name, if any. -/
def SearchParams.get : SearchParams → String → Option (List Char)
  | [], _ => none
  | (k, v) :: rest, name => if k = name then some v else SearchParams.get rest name

/-- The expression `a || b` on strings, where `a` may be `null`: `b` takes the
place of `null` and of the empty string. -/
def orElse (a : Option (List Char)) (b : List Char) : List Char :=
  match a with
  | none => b
  | some [] => b
  | some (c :: cs) => c :: cs

/-- The pair the list page derives from the address. -/
structure PageFilterState where
  page : JSNum
  filter : List Char
  deriving DecidableEq

/-- The first lines of `PullRequestList`, which read `page` and `filter` from
the query parameters. -/
def decode (searchParams : SearchParams) : PageFilterState :=
  { page := parseInt (orElse (searchParams.get "page") ['1'])
    filter := parseQueryFilter (searchParams.get "q") }

/-- The function `updateParams`: the query parameters `setSearchParams` is
called with, which replace the ones of the address. -/
def updateParams (newPage : JSNum) (newFilter : List Char) : SearchParams :=
  [("page", newPage.toString), ("q", buildQueryFilter newFilter)]

/-- The writing direction of the synchronizer, `updateParams` on a state. -/
def encode (state : PageFilterState) : SearchParams :=
  updateParams state.page state.filter

/-- The function `handleFilterChange`. -/
def handleFilterChange (newFilter : List Char) : SearchParams :=
  updateParams (JSNum.int 1) newFilter

/-- The function `handlePageChange`; `searchParams` are the parameters of the
address the page was rendered from, from which `filter` is read. -/
def handlePageChange (searchParams : SearchParams) (newPage : JSNum) : SearchParams :=
  updateParams newPage (decode searchParams).filter

/-! ## Status badge and counts (`PullRequestList.jsx`, `PullRequestDetail.jsx`,
`IssueDetail.jsx`) -/

/-- A pull request as the endpoints deliver it; `merged_at` is `null` (here
`none`) or a timestamp. -/
structure PullRequest where
  number : Nat
  title : List Char
  state : List Char
  merged_at : Option (List Char)
  changed_files : Nat
  deriving DecidableEq

/-- Truthiness of a string that may be `null`: false for `null` and for the empty
string. -/
def truthy : Option (List Char) → Bool
  | none => false
  | some [] => false
  | some (_ :: _) => true

/-- The function `getPRStatus` of `PullRequestList.jsx`. -/
def PullRequestList.getPRStatus (pr : PullRequest) : String :=
  if truthy pr.merged_at then "Merged"
  else if pr.state = "open".toList then "Open"
  else "Closed"

/-- The function `getPRStatus` of `PullRequestDetail.jsx`; `data` is the state
of the page, `none` before a response has arrived. -/
def PullRequestDetail.getPRStatus (data : Option PullRequest) : String :=
  match data with
  | none => ""
  | some pull_request =>
    if truthy pull_request.merged_at then "Merged"
    else if pull_request.state = "open".toList then "Open"
    else "Closed"

/-- The function `getStatusColor` of `PullRequestDetail.jsx`: the pair
`backgroundColor`, `color`, or `none` for the empty style. -/
def PullRequestDetail.getStatusColor (data : Option PullRequest) : Option (String × String) :=
  match data with
  | none => none
  | some pull_request =>
    if truthy pull_request.merged_at then some ("#8250df", "#ffffff")
    else if pull_request.state = "open".toList then some ("#1f883d", "#ffffff")
    else some ("#cf222e", "#ffffff")

/-- The status tag as the specification words it: merged when a merge timestamp
is present, otherwise open for the state `open`, otherwise closed. -/
def specStatus (pr : PullRequest) : String :=
  match pr.merged_at with
  | some (_ :: _) => "Merged"
  | _ => if pr.state = "open".toList then "Open" else "Closed"

/-- The JSX expression `n !== 1 && 's'`: the letter `s`, or nothing for
`false`. -/
def pluralS (n : Nat) : List Char :=
  if n ≠ 1 then ['s'] else []

/-- The comment count of `IssueDetail.jsx`: the count, then `comment` with the
plural letter. -/
def IssueDetail.commentCount (n : Nat) : List Char :=
  (JSNum.int n).toString ++ " comment".toList ++ pluralS n

/-- The file count in the header of `PullRequestDetail.jsx`. -/
def PullRequestDetail.filesChanged (changed_files : Nat) : List Char :=
  (JSNum.int changed_files).toString ++ " file".toList ++ pluralS changed_files ++
    " changed".toList

/-- The file count at the top of the files tab of `PullRequestDetail.jsx`, up to
the word `with`. -/
def PullRequestDetail.showingFiles (n : Nat) : List Char :=
  "Showing ".toList ++ (JSNum.int n).toString ++ " changed file".toList ++ pluralS n ++
    " with".toList

/-- A non-empty run of word characters, the shape of what `(\w+)` captures. -/
def isWord (w : List Char) : Bool :=
  !w.isEmpty && w.all isWordChar

/-- An integer page of at least 1, as the data model asks of a page. -/
def JSNum.atLeastOne : JSNum → Bool
  | JSNum.nan => false
  | JSNum.int v => decide (1 ≤ v)
  | JSNum.big negative _ => !negative
  | JSNum.inf _ => false

/-! ## Fetching the list (`PullRequestList.jsx`, `fetchPRs` and its effect)

The page is single-threaded.  A fetch is issued when the page is mounted and
whenever the pair of page and filter changes; it settles later, in an event of
its own, and several fetches can be under way at once.  The events are made
explicit and a run is a list of events.
-/

/-- How a fetch settles: a response with the list and `has_more`, or a failure
with its message (no network, a status that is not ok, a body that is not
JSON). -/
inductive FetchResult where
  | ok (pull_requests : List PullRequest) (has_more : Bool)
  | failed (message : String)
  deriving DecidableEq

/-- A fetch under way, with the page and filter `fetchPRs` put into its
address. -/
structure PendingFetch where
  page : JSNum
  filter : List Char
  deriving DecidableEq

/-- The state of the list page: page and filter of the address, the four state
variables of the component, and the fetches under way, oldest first. -/
structure ListView where
  page : JSNum
  filter : List Char
  prs : List PullRequest
  loading : Bool
  error : Option String
  hasMore : Bool
  pending : List PendingFetch
  deriving DecidableEq

/-- The function `fetchPRs` up to its first `await`; `token` is what `getToken()`
returns. -/
def fetchPRs (token : List Char) (s : ListView) : ListView :=
  if token.isEmpty then
    { s with
      error := some "Please set your PAT token first (click \"Set Token\" in the header)"
      loading := false }
  else
    { s with
      loading := true
      error := none
      pending := s.pending ++ [{ page := s.page, filter := s.filter }] }

/-- The first rendering of the page for an address, with the effect run once. -/
def ListView.mount (token : List Char) (searchParams : SearchParams) : ListView :=
  fetchPRs token
    { page := (decode searchParams).page
      filter := (decode searchParams).filter
      prs := []
      loading := true
      error := none
      hasMore := true
      pending := [] }

/-- A change of the address: page and filter are read again, and the effect runs
`fetchPRs` when one of them differs from before. -/
def ListView.navigate (token : List Char) (searchParams : SearchParams) (s : ListView) :
    ListView :=
  let next : ListView :=
    { s with page := (decode searchParams).page, filter := (decode searchParams).filter }
  if next.page = s.page ∧ next.filter = s.filter then next else fetchPRs token next

/-- The rest of `fetchPRs`, run when the fetch at position `i` settles: `setPrs`
and `setHasMore` for a response, `setError` for a failure, `setLoading(false)`
in both cases. -/
def ListView.settle (i : Nat) (result : FetchResult) (s : ListView) : ListView :=
  match s.pending[i]? with
  | none => s
  | some _ =>
    match result with
    | FetchResult.ok pull_requests has_more =>
      { s with
        pending := s.pending.eraseIdx i
        prs := pull_requests
        hasMore := has_more
        loading := false }
    | FetchResult.failed message =>
      { s with
        pending := s.pending.eraseIdx i
        error := some message
        loading := false }

/-- The events of the list page. -/
inductive ListEvent where
  | navigate (token : List Char) (searchParams : SearchParams)
  | settle (i : Nat) (result : FetchResult)

/-- One event. -/
def ListView.step (s : ListView) : ListEvent → ListView
  | ListEvent.navigate token searchParams => s.navigate token searchParams
  | ListEvent.settle i result => s.settle i result

/-- A run of events, from the left. -/
def ListView.run (s : ListView) (events : List ListEvent) : ListView :=
  events.foldl ListView.step s

/-- The list on the screen: the rows of `prs`, shown by `!loading && !error`. -/
def ListView.displayed (s : ListView) : Option (List PullRequest) :=
  if !s.loading && (s.error = none || s.error = some "") then some s.prs else none

/-! ## Task-list items (`Markdown.jsx`, `TaskListItem` and the `li` component) -/

/-- The prop `checked` that the markdown renderer hands to the `li` component. -/
inductive Checked where
  | undefined
  | null
  | bool (b : Bool)
  deriving DecidableEq

/-- The `<input>` of a task-list item. -/
structure Checkbox where
  type : String
  checked : Checked
  readOnly : Bool
  accentColor : String
  deriving DecidableEq

/-- A rendered `<li>`: its own class and style, the checkbox in front of the
children if there is one, the props spread onto it, and the children. -/
structure LiElement (Props Children : Type) where
  className : Option String
  listStyle : Option String
  marginLeft : Option String
  input : Option Checkbox
  props : Option Props
  children : Children

/-- The component `TaskListItem`. -/
def TaskListItem {Props Children : Type} (checked : Checked) (children : Children) :
    LiElement Props Children :=
  { className := some "task-list-item"
    listStyle := some "none"
    marginLeft := some "-1.5em"
    input := some { type := "checkbox", checked := checked, readOnly := true,
                    accentColor := "#1f883d" }
    props := none
    children := children }

/-- The `li` entry of the `components` of `Markdown`. -/
def li {Props Children : Type} (checked : Checked) (props : Props) (children : Children) :
    LiElement Props Children :=
  if checked ≠ Checked.null ∧ checked ≠ Checked.undefined then
    TaskListItem checked children
  else
    { className := none, listStyle := none, marginLeft := none, input := none,
      props := some props, children := children }

/-! ## Relative dates (`Layout.jsx`, `formatDate`) -/

/-- Subtraction of Numbers.  `NaN` is contagious, and so is an infinity unless
the same infinity is taken from it.  Two integers of `int` are subtracted
exactly, as two time values are; with a `big` operand the exact difference is
rounded. -/
def JSNum.sub : JSNum → JSNum → JSNum
  | JSNum.int a, JSNum.int b => JSNum.int (a - b)
  | JSNum.nan, _ => JSNum.nan
  | _, JSNum.nan => JSNum.nan
  | JSNum.inf s, JSNum.inf t => if s = t then JSNum.nan else JSNum.inf s
  | JSNum.inf s, _ => JSNum.inf s
  | _, JSNum.inf t => JSNum.inf (!t)
  | a, b =>
    match a.finite, b.finite with
    | some x, some y => JSNum.ofInt (x - y)
    | _, _ => JSNum.nan

/-- The expression `Math.floor(a / d)` for a positive integer `d`.  The quotient
is taken exactly, which the division of doubles agrees with on the differences
of time values. -/
def JSNum.floorDiv : JSNum → Int → JSNum
  | JSNum.int a, d => JSNum.int (Int.fdiv a d)
  | JSNum.nan, _ => JSNum.nan
  | JSNum.inf s, _ => JSNum.inf s
  | JSNum.big negative m, d =>
    JSNum.ofInt (Int.fdiv (if negative then -(m : Int) else (m : Int)) d)

/-- The comparison `a === b` of Numbers: `NaN` equals nothing. -/
def JSNum.strictEq : JSNum → JSNum → Bool
  | JSNum.int a, JSNum.int b => decide (a = b)
  | JSNum.big s m, JSNum.big t k => decide (s = t ∧ m = k)
  | JSNum.inf s, JSNum.inf t => decide (s = t)
  | _, _ => false

/-- The comparison `a < b` of Numbers: false when one of them is `NaN`. -/
def JSNum.lt : JSNum → JSNum → Bool
  | JSNum.int a, JSNum.int b => decide (a < b)
  | JSNum.nan, _ => false
  | _, JSNum.nan => false
  | JSNum.inf s, JSNum.inf t => s && !t
  | JSNum.inf s, _ => s
  | _, JSNum.inf t => !t
  | a, b =>
    match a.finite, b.finite with
    | some x, some y => decide (x < y)
    | _, _ => false

/-- The function `formatDate`.  `date` is the time value of `new Date(dateStr)`
in milliseconds, `NaN` for a string that is no date; `now` is the time value of
`new Date()`; `toLocaleDateString` stands for the library call of that name with
the options of the source. -/
def formatDate (toLocaleDateString : JSNum → List Char) (date : JSNum) (now : Int) :
    List Char :=
  let diff := (JSNum.int now).sub date
  let days := diff.floorDiv (1000 * 60 * 60 * 24)
  if days.strictEq (JSNum.int 0) then "today".toList
  else if days.strictEq (JSNum.int 1) then "yesterday".toList
  else if days.lt (JSNum.int 30) then days.toString ++ " days ago".toList
  else toLocaleDateString date

/-- An occurrence at position `k` of `q` of what `is:(\w+)` needs: `is:` with
a word character right after it. -/
def occursAt (q : List Char) (k : Nat) : Bool :=
  startsWith (q.drop k) ['i', 's', ':'] &&
    match q.drop (k + 3) with
    | [] => false
    | c :: _ => isWordChar c

/-- The 1-based index of a row: `idx + 1`, the number its first cell shows
unless the row is a hunk header. -/
def Row.index (r : Row) : Nat :=
  r.key + 1

/-- An event without a failure: a change of the address with a token at hand, or
a fetch that settles with a response. -/
def ListEvent.clean : ListEvent → Bool
  | ListEvent.navigate token _ => !token.isEmpty
  | ListEvent.settle _ (FetchResult.ok _ _) => true
  | ListEvent.settle _ (FetchResult.failed _) => false

/-! ## Lemmas on the string operations -/

theorem split_ne_nil (sep : Char) (s : List Char) : split sep s ≠ [] := by
  cases s with
  | nil => simp [split]
  | cons c cs =>
    simp only [split]
    split
    · simp
    · split <;> simp

theorem length_split (sep : Char) (s : List Char) :
    (split sep s).length = s.count sep + 1 := by
  induction s with
  | nil => simp [split]
  | cons c cs ih =>
    simp only [split]
    by_cases h : c = sep
    · subst h
      simp [ih]
    · have hne : (c == sep) = false := by simpa using h
      rw [if_neg h, List.count_cons, hne]
      cases hs : split sep cs with
      | nil => exact absurd hs (split_ne_nil sep cs)
      | cons l ls =>
        rw [hs] at ih
        simpa using ih

theorem join_cons_of_ne_nil (sep : Char) (l : List Char) {ls : List (List Char)}
    (h : ls ≠ []) : join sep (l :: ls) = l ++ sep :: join sep ls := by
  cases ls with
  | nil => exact absurd rfl h
  | cons m ms => simp [join]

theorem join_split (sep : Char) (s : List Char) : join sep (split sep s) = s := by
  induction s with
  | nil => simp [split, join]
  | cons c cs ih =>
    simp only [split]
    by_cases h : c = sep
    · subst h
      rw [if_pos rfl, join_cons_of_ne_nil _ _ (split_ne_nil _ _), ih]
      rfl
    · rw [if_neg h]
      cases hs : split sep cs with
      | nil => exact absurd hs (split_ne_nil sep cs)
      | cons l ls =>
        rw [hs] at ih
        cases ls with
        | nil =>
          simp only [join] at ih ⊢
          rw [ih]
        | cons m ms =>
          simp only [join] at ih ⊢
          rw [← ih]
          rfl

/-! ## Lemmas on the diff view -/

theorem length_mapRows (k : Nat) (ls : List (List Char)) :
    (mapRows k ls).length = ls.length := by
  induction ls generalizing k with
  | nil => rfl
  | cons l ls ih => simp [mapRows, ih]

theorem map_text_mapRows (k : Nat) (ls : List (List Char)) :
    (mapRows k ls).map Row.text = ls := by
  induction ls generalizing k with
  | nil => rfl
  | cons l ls ih => simp [mapRows, ih, row]

theorem getElem?_mapRows (k : Nat) (ls : List (List Char)) (i : Nat) :
    (mapRows k ls)[i]? = (ls[i]?).map (fun l => row l (k + i)) := by
  induction ls generalizing k i with
  | nil => simp [mapRows]
  | cons l ls ih =>
    cases i with
    | zero => simp [mapRows]
    | succ i =>
      simp only [mapRows, List.getElem?_cons_succ, ih]
      congr 1
      funext l
      congr 1
      omega

theorem row_kind (line : List Char) (idx : Nat) : (row line idx).kind = specKind line := by
  rcases line with _ | ⟨c, _ | ⟨d, cs⟩⟩
  · simp [row, Row.kind, specKind, startsWith]
  · by_cases h1 : c = '+' <;> by_cases h2 : c = '-' <;> by_cases h3 : c = '@' <;>
      simp_all [row, Row.kind, specKind, startsWith]
  · by_cases h1 : c = '+' <;> by_cases h2 : c = '-' <;> by_cases h3 : c = '@' <;>
      simp_all [row, Row.kind, specKind, startsWith]

theorem row_isHunk_iff (line : List Char) (idx : Nat) :
    (row line idx).isHunk = true ↔ (row line idx).kind = Kind.HunkHeader := by
  rw [row_kind]
  simp only [row, specKind]
  split
  · simp_all
  · split
    · simp_all
    · split <;> simp_all

theorem DiffView_some_cons (f : FileDiff) (c : Char) (cs : List Char) (collapsed : Bool) :
    DiffView { f with patch := some (c :: cs) } collapsed =
      if collapsed then DiffBody.hidden else DiffBody.table (diffRows (c :: cs)) := by
  cases collapsed <;> simp [DiffView, patchMissing, diffRows]

/-! ## Lemmas on the comment filter -/

theorem startsWith_iff_isPrefixOf (s p : List Char) : startsWith s p = true ↔ p <+: s := by
  induction p generalizing s with
  | nil => simp [startsWith]
  | cons q qs ih =>
    cases s with
    | nil => simp [startsWith]
    | cons c cs =>
      simp only [startsWith, Bool.and_eq_true, beq_iff_eq, ih, List.cons_prefix_cons]
      constructor
      · rintro ⟨h1, h2⟩
        exact ⟨h1.symm, h2⟩
      · rintro ⟨h1, h2⟩
        exact ⟨h1.symm, h2⟩

theorem startsWith_eq_false {s p : List Char} (h : ¬ p <:+: s) :
    startsWith s p = false := by
  cases hs : startsWith s p with
  | false => rfl
  | true => exact absurd ((startsWith_iff_isPrefixOf s p).1 hs).isInfix h

theorem not_infix_tail {p : List Char} {c : Char} {cs : List Char} (h : ¬ p <:+: c :: cs) :
    ¬ p <:+: cs :=
  fun h2 => h (h2.trans (List.suffix_cons c cs).isInfix)

theorem afterClose_length {s r : List Char} (h : afterClose s = some r) :
    r.length + 3 ≤ s.length := by
  induction s with
  | nil => simp [afterClose] at h
  | cons c cs ih =>
    simp only [afterClose] at h
    split at h
    · rename_i hp
      have hlen := ((startsWith_iff_isPrefixOf _ _).1 hp).length_le
      simp only [Option.some.injEq] at h
      subst h
      simp only [List.length_drop, List.length_cons] at hlen ⊢
      omega
    · have := ih h
      simp only [List.length_cons]
      omega

theorem matchComment_length {s r : List Char} (h : matchComment s = some r) :
    r.length < s.length := by
  simp only [matchComment] at h
  split at h
  · have := afterClose_length h
    simp only [List.length_drop] at this
    omega
  · simp at h

theorem replaceComments_nil (n : Nat) : replaceComments n [] = [] := by
  cases n <;> rfl

/-- Fuel above the length of the text does not change the result. -/
theorem replaceComments_fuel (n m : Nat) (s : List Char) (hn : s.length ≤ n)
    (hm : s.length ≤ m) : replaceComments n s = replaceComments m s := by
  induction n generalizing m s with
  | zero =>
    have : s = [] := List.length_eq_zero.1 (Nat.le_zero.1 hn)
    subst this
    simp [replaceComments_nil]
  | succ n ih =>
    cases s with
    | nil => simp [replaceComments_nil]
    | cons c cs =>
      cases m with
      | zero => simp at hm
      | succ m =>
        simp only [replaceComments]
        simp only [List.length_cons, Nat.add_le_add_iff_right] at hn hm
        cases hmc : matchComment (c :: cs) with
        | none =>
          simp only
          rw [ih m cs hn hm]
        | some rest =>
          simp only
          have hlt := matchComment_length hmc
          simp only [List.length_cons] at hlt
          exact ih m rest (by omega) (by omega)

theorem stripComments_nil : stripComments [] = [] := rfl

theorem stripComments_cons_some {c : Char} {cs rest : List Char}
    (h : matchComment (c :: cs) = some rest) :
    stripComments (c :: cs) = stripComments rest := by
  have hlt := matchComment_length h
  simp only [List.length_cons] at hlt
  simp only [stripComments, List.length_cons, replaceComments, h]
  exact replaceComments_fuel _ _ _ (by omega) (Nat.le_refl _)

theorem stripComments_cons_none {c : Char} {cs : List Char}
    (h : matchComment (c :: cs) = none) :
    stripComments (c :: cs) = c :: stripComments cs := by
  simp only [stripComments, List.length_cons, replaceComments, h]

theorem filterComments_some (s : List Char) : filterComments (some s) = stripComments s := by
  cases s <;> rfl

theorem startsWith_open_append {a : List Char} (t : List Char) (ha : a ≠ [])
    (h : ¬ ['<', '!', '-', '-'] <:+: a) :
    startsWith (a ++ '<' :: '!' :: '-' :: '-' :: t) ['<', '!', '-', '-'] = false := by
  rcases a with _ | ⟨x, _ | ⟨y, _ | ⟨z, _ | ⟨w, rest⟩⟩⟩⟩
  · exact absurd rfl ha
  · simp [startsWith]
  · simp [startsWith]
  · simp [startsWith]
  · have := startsWith_eq_false h
    simpa [startsWith] using this

theorem startsWith_close_append {c : List Char} (b : List Char) (hc : c ≠ [])
    (h : ¬ ['-', '-', '>'] <:+: c) :
    startsWith (c ++ '-' :: '-' :: '>' :: b) ['-', '-', '>'] = false := by
  rcases c with _ | ⟨x, _ | ⟨y, _ | ⟨z, rest⟩⟩⟩
  · exact absurd rfl hc
  · simp [startsWith]
  · simp [startsWith]
  · have := startsWith_eq_false h
    simpa [startsWith] using this

/-- Text without a start marker in front of a start marker is kept, and the scan
goes on at the marker. -/
theorem stripComments_append_open {a : List Char} (t : List Char)
    (h : ¬ ['<', '!', '-', '-'] <:+: a) :
    stripComments (a ++ '<' :: '!' :: '-' :: '-' :: t) =
      a ++ stripComments ('<' :: '!' :: '-' :: '-' :: t) := by
  induction a with
  | nil => rfl
  | cons x a ih =>
    have hs := startsWith_open_append t (List.cons_ne_nil x a) h
    have hm : matchComment (x :: (a ++ '<' :: '!' :: '-' :: '-' :: t)) = none := by
      simp only [matchComment]
      rw [← List.cons_append, hs]
      rfl
    rw [List.cons_append, stripComments_cons_none hm, ih (not_infix_tail h), List.cons_append]

/-- The lazy body of the expression stops at the first end marker. -/
theorem afterClose_append_close {c : List Char} (b : List Char)
    (h : ¬ ['-', '-', '>'] <:+: c) :
    afterClose (c ++ '-' :: '-' :: '>' :: b) = some b := by
  induction c with
  | nil => simp [afterClose, startsWith]
  | cons x c ih =>
    have hs := startsWith_close_append b (List.cons_ne_nil x c) h
    rw [List.cons_append] at hs ⊢
    simp only [afterClose, hs]
    exact ih (not_infix_tail h)

theorem afterClose_eq_none {s : List Char} (h : ¬ ['-', '-', '>'] <:+: s) :
    afterClose s = none := by
  induction s with
  | nil => rfl
  | cons c cs ih =>
    simp only [afterClose, startsWith_eq_false h]
    exact ih (not_infix_tail h)

/-- Without an end marker from the fifth character on, nothing is removed. -/
theorem stripComments_of_no_close {s : List Char} (h : ¬ ['-', '-', '>'] <:+: s.drop 4) :
    stripComments s = s := by
  induction s with
  | nil => rfl
  | cons c cs ih =>
    have hm : matchComment (c :: cs) = none := by
      simp only [matchComment]
      split
      · exact afterClose_eq_none h
      · rfl
    rw [stripComments_cons_none hm, ih]
    intro h2
    apply h
    have hsuf : cs.drop 4 <:+ cs.drop 3 := by
      have := List.drop_suffix 1 (cs.drop 3)
      rwa [List.drop_drop] at this
    exact h2.trans hsuf.isInfix

/-- Without a start marker, nothing is removed. -/
theorem stripComments_of_no_open {s : List Char} (h : ¬ ['<', '!', '-', '-'] <:+: s) :
    stripComments s = s := by
  induction s with
  | nil => rfl
  | cons c cs ih =>
    have hm : matchComment (c :: cs) = none := by
      simp only [matchComment, startsWith_eq_false h]
      rfl
    rw [stripComments_cons_none hm, ih (not_infix_tail h)]

theorem afterClose_eq_some {s r : List Char} (h : afterClose s = some r) :
    ∃ v, s = v ++ '-' :: '-' :: '>' :: r := by
  induction s with
  | nil => simp [afterClose] at h
  | cons c cs ih =>
    simp only [afterClose] at h
    split at h
    · rename_i hp
      obtain ⟨t, ht⟩ := (startsWith_iff_isPrefixOf _ _).1 hp
      refine ⟨[], ?_⟩
      rw [← ht] at h ⊢
      simp only [Option.some.injEq] at h
      rw [← h]
      rfl
    · obtain ⟨v, hv⟩ := ih h
      exact ⟨c :: v, by rw [hv]; rfl⟩

theorem afterClose_append_ne_none (v w : List Char) :
    afterClose (v ++ '-' :: '-' :: '>' :: w) ≠ none := by
  induction v with
  | nil => simp [afterClose, startsWith]
  | cons c v ih =>
    rw [List.cons_append]
    simp only [afterClose]
    split
    · simp
    · exact ih

theorem matchComment_open_close (v w : List Char) :
    ∃ r, matchComment ('<' :: '!' :: '-' :: '-' :: (v ++ '-' :: '-' :: '>' :: w)) = some r := by
  cases h : afterClose (v ++ '-' :: '-' :: '>' :: w) with
  | none => exact absurd h (afterClose_append_ne_none v w)
  | some r => exact ⟨r, by simp [matchComment, startsWith, h]⟩

theorem length_stripComments_le (s : List Char) : (stripComments s).length ≤ s.length := by
  suffices hall : ∀ n (s : List Char), s.length = n → (stripComments s).length ≤ s.length from
    hall s.length s rfl
  intro n
  induction n using Nat.strong_induction_on with
  | _ n ih =>
    intro s hn
    cases s with
    | nil => simp [stripComments_nil]
    | cons c cs =>
      subst hn
      cases hm : matchComment (c :: cs) with
      | none =>
        rw [stripComments_cons_none hm]
        have := ih cs.length (by simp) cs rfl
        simp only [List.length_cons]
        omega
      | some rest =>
        rw [stripComments_cons_some hm]
        have hlt := matchComment_length hm
        have := ih rest.length hlt rest rfl
        omega

theorem length_stripComments_lt (u : List Char) {t r : List Char}
    (h : matchComment t = some r) : (stripComments (u ++ t)).length < (u ++ t).length := by
  induction u with
  | nil =>
    cases t with
    | nil => simp [matchComment, startsWith] at h
    | cons c cs =>
      rw [List.nil_append, stripComments_cons_some h]
      exact Nat.lt_of_le_of_lt (length_stripComments_le r) (matchComment_length h)
  | cons c u ih =>
    rw [List.cons_append]
    cases hm : matchComment (c :: (u ++ t)) with
    | none =>
      rw [stripComments_cons_none hm]
      simp only [List.length_cons]
      omega
    | some rest =>
      rw [stripComments_cons_some hm]
      exact Nat.lt_of_le_of_lt (length_stripComments_le rest) (matchComment_length hm)

/-- A pass removes nothing exactly from the texts without a start marker that is
followed, further on, by an end marker. -/
theorem stripComments_eq_self_iff (y : List Char) :
    stripComments y = y ↔
      ¬ ∃ u v w, y = u ++ '<' :: '!' :: '-' :: '-' :: (v ++ '-' :: '-' :: '>' :: w) := by
  constructor
  · rintro h ⟨u, v, w, rfl⟩
    obtain ⟨r, hr⟩ := matchComment_open_close v w
    have := length_stripComments_lt u hr
    rw [h] at this
    exact Nat.lt_irrefl _ this
  · intro h
    induction y with
    | nil => rfl
    | cons c cs ih =>
      have hm : matchComment (c :: cs) = none := by
        cases hm : matchComment (c :: cs) with
        | none => rfl
        | some r =>
          exfalso
          simp only [matchComment] at hm
          split at hm
          · rename_i hp
            obtain ⟨t, ht⟩ := (startsWith_iff_isPrefixOf _ _).1 hp
            rw [← ht] at hm
            obtain ⟨v, hv⟩ := afterClose_eq_some hm
            refine h ⟨[], v, r, ?_⟩
            rw [← ht, List.nil_append]
            simp only [List.cons_append, List.nil_append, List.drop_succ_cons, List.drop_zero] at hv ⊢
            rw [hv]
          · simp at hm
      rw [stripComments_cons_none hm, ih]
      rintro ⟨u, v, w, rfl⟩
      exact h ⟨c :: u, v, w, rfl⟩

theorem map_kind_mapRows (k : Nat) (ls : List (List Char)) :
    (mapRows k ls).map Row.kind = ls.map specKind := by
  induction ls generalizing k with
  | nil => rfl
  | cons l ls ih => simp [mapRows, ih, row_kind]

theorem DiffView_rows (f : FileDiff) (patch : List Char) :
    (DiffView { f with patch := some patch } false).rows =
      if patch = [] then [] else diffRows patch := by
  cases patch with
  | nil => rfl
  | cons c cs => simp [DiffView_some_cons, DiffBody.rows]

/-! ## The diff view: claims -/

/-- C1: for every line, the kind the diff view assigns (it tests addition, then
deletion, then hunk header) equals the kind of the first-match-wins rule of the
specification (hunk header first, then addition, then deletion, otherwise
context); so the kinds of the rows shown for a patch are the specification's
kinds of its lines. -/
theorem C1_kind_agrees_with_spec_order (line : List Char) (idx : Nat) (f : FileDiff)
    (patch : List Char) :
    (row line idx).kind = specKind line ∧
    (DiffView { f with patch := some patch } false).rows.map Row.kind =
      (if patch = [] then [] else (split '\n' patch).map specKind) := by
  refine ⟨row_kind line idx, ?_⟩
  rw [DiffView_rows]
  split
  · rfl
  · exact map_kind_mapRows 0 _

/-- C2, as stated, fails on the empty patch: the view shows no diff line for it,
while the empty string has one line-break-delimited segment. -/
theorem C2_empty_patch_counterexample :
    (DiffView ⟨"a.txt", "modified", 0, 0, some "".toList⟩ false).rows.length ≠
      "".toList.count '\n' + 1 := by
  decide

/-- C2, amended: for every non-empty patch string, the number of diff lines
shown equals the number of line breaks in the patch plus one, so a trailing
line break yields a final empty line. -/
theorem C2_rows_length (f : FileDiff) (patch : List Char) (h : patch ≠ []) :
    (DiffView { f with patch := some patch } false).rows.length =
      patch.count '\n' + 1 := by
  rw [DiffView_rows, if_neg h, diffRows, length_mapRows, length_split]

theorem C2_rows_length_witness :
    "+a\n".toList ≠ [] ∧
    (DiffView { (⟨"a.txt", "added", 1, 0, none⟩ : FileDiff) with
        patch := some "+a\n".toList } false).rows.length = "+a\n".toList.count '\n' + 1 :=
  ⟨by decide, C2_rows_length ⟨"a.txt", "added", 1, 0, none⟩ "+a\n".toList (by decide)⟩

/-- C3, as stated, fails: the patch of the example does not yield the four
kinds Addition, Deletion, HunkHeader, Context. -/
theorem C3_four_kinds_counterexample :
    (DiffView ⟨"a.txt", "modified", 1, 1, some "+a\n-b\n@@ x @@\n c\n".toList⟩ false).rows.map
        Row.kind ≠
      [Kind.Addition, Kind.Deletion, Kind.HunkHeader, Kind.Context] := by
  decide

/-- C3, amended: the patch of the example yields five rows, of kinds Addition,
Deletion, HunkHeader, Context, Context; the fifth is the empty segment after the
trailing line break. -/
theorem C3_five_kinds :
    (DiffView ⟨"a.txt", "modified", 1, 1, some "+a\n-b\n@@ x @@\n c\n".toList⟩ false).rows.map
        (fun r => (r.kind, r.text)) =
      [(Kind.Addition, "+a".toList), (Kind.Deletion, "-b".toList),
       (Kind.HunkHeader, "@@ x @@".toList), (Kind.Context, " c".toList),
       (Kind.Context, "".toList)] := by
  decide

/-- C4: for a file whose patch is the empty string the view produces no diff
line, and the outcome is an ordinary rendering (the notice), not an error. -/
theorem C4_empty_patch_no_rows (f : FileDiff) (collapsed : Bool) :
    (DiffView { f with patch := some "".toList } collapsed).rows = [] ∧
    DiffView { f with patch := some "".toList } collapsed =
      DiffBody.message "Binary file or diff too large to display" :=
  ⟨rfl, rfl⟩

/-- C5: in the rows shown for a patch, the row at 0-based position i holds the
line at position i of the patch and has React key i, that is 1-based index
i + 1, hunk headers included; it is a hunk header exactly when its line starts
with "@@"; its displayed number is absent exactly when it is a hunk header,
and is its index i + 1 otherwise. -/
theorem C5_index_and_displayed_number (f : FileDiff) (patch : List Char) (i : Nat) (r : Row)
    (h : (DiffView { f with patch := some patch } false).rows[i]? = some r) :
    (split '\n' patch)[i]? = some r.text ∧
    r.key = i ∧ r.index = i + 1 ∧
    (r.kind = Kind.HunkHeader ↔ startsWith r.text ['@', '@'] = true) ∧
    (r.number = none ↔ r.kind = Kind.HunkHeader) ∧
    (r.kind ≠ Kind.HunkHeader → r.number = some r.index) ∧
    (r.kind ≠ Kind.HunkHeader → r.number = some (i + 1)) := by
  rw [DiffView_rows] at h
  split at h
  · simp at h
  · rw [diffRows, getElem?_mapRows] at h
    cases hl : (split '\n' patch)[i]? with
    | none => simp [hl] at h
    | some l =>
      simp only [hl, Option.map_some', Nat.zero_add, Option.some.injEq] at h
      subst h
      have hk := row_isHunk_iff l i
      have hnum : (row l i).kind ≠ Kind.HunkHeader → (row l i).number = some (i + 1) := by
        rw [Ne, ← hk]
        simp only [row]
        split <;> simp_all
      refine ⟨rfl, rfl, rfl, hk.symm, ?_, hnum, hnum⟩
      rw [← hk]
      simp only [row]
      split <;> simp_all

theorem C5_index_and_displayed_number_witness :
    (DiffView { (⟨"a.txt", "modified", 1, 0, none⟩ : FileDiff) with
        patch := some "+a\n@@ -1 +1,2 @@\n+b".toList } false).rows[1]? =
      some (row "@@ -1 +1,2 @@".toList 1) ∧
    (row "@@ -1 +1,2 @@".toList 1).index = 2 ∧
    (row "@@ -1 +1,2 @@".toList 1).kind = Kind.HunkHeader ∧
    (row "@@ -1 +1,2 @@".toList 1).number = none ∧
    (DiffView { (⟨"a.txt", "modified", 1, 0, none⟩ : FileDiff) with
        patch := some "+a\n@@ -1 +1,2 @@\n+b".toList } false).rows[2]? =
      some (row "+b".toList 2) ∧
    (row "+b".toList 2).kind ≠ Kind.HunkHeader ∧
    (row "+b".toList 2).number = some (2 + 1) :=
  have h1 := C5_index_and_displayed_number ⟨"a.txt", "modified", 1, 0, none⟩
    "+a\n@@ -1 +1,2 @@\n+b".toList 1 (row "@@ -1 +1,2 @@".toList 1) (by decide)
  have h2 := C5_index_and_displayed_number ⟨"a.txt", "modified", 1, 0, none⟩
    "+a\n@@ -1 +1,2 @@\n+b".toList 2 (row "+b".toList 2) (by decide)
  ⟨by decide, h1.2.2.1, h1.2.2.2.1.2 (by decide), h1.2.2.2.2.1.2 (h1.2.2.2.1.2 (by decide)),
    by decide, by decide, h2.2.2.2.2.2.2 (by decide)⟩

/-- C6: the rows shown for a patch are its lines in order, each with its text
unchanged: the texts are the segments of the split (none for the empty patch),
and joining them with a line break gives back the patch. -/
theorem C6_texts_join_to_patch (f : FileDiff) (patch : List Char) :
    (DiffView { f with patch := some patch } false).rows.map Row.text =
      (if patch = [] then [] else split '\n' patch) ∧
    join '\n' ((DiffView { f with patch := some patch } false).rows.map Row.text) = patch := by
  rw [DiffView_rows]
  split
  · rename_i h
    subst h
    exact ⟨rfl, rfl⟩
  · rw [diffRows, map_text_mapRows]
    exact ⟨rfl, join_split _ _⟩

/-- C7, as stated, fails for a patch that is present but empty: the view is the
notice, not the table of the rows of that patch. -/
theorem C7_present_empty_patch_counterexample :
    DiffView ⟨"a.txt", "modified", 0, 0, some "".toList⟩ false =
      DiffBody.message "Binary file or diff too large to display" ∧
    DiffView ⟨"a.txt", "modified", 0, 0, some "".toList⟩ false ≠
      DiffBody.table (diffRows "".toList) := by
  decide

/-- C7, amended: for every file whose patch is absent or the empty string, the
view is the notice "Binary file or diff too large to display" and shows no diff
line; for every file whose patch is present and not empty, the view is the
table of the rows of that patch (nothing below the header bar while it is
collapsed). -/
theorem C7_notice_or_rows (f : FileDiff) (collapsed : Bool) :
    DiffView f collapsed =
      (match f.patch with
       | none => DiffBody.message "Binary file or diff too large to display"
       | some [] => DiffBody.message "Binary file or diff too large to display"
       | some (c :: cs) =>
         if collapsed then DiffBody.hidden else DiffBody.table (diffRows (c :: cs))) ∧
    (patchMissing f.patch = true → (DiffView f collapsed).rows = []) := by
  rcases f with ⟨fn, st, ad, de, _ | _ | ⟨c, cs⟩⟩
  · exact ⟨rfl, fun _ => rfl⟩
  · exact ⟨rfl, fun _ => rfl⟩
  · refine ⟨DiffView_some_cons ⟨fn, st, ad, de, none⟩ c cs collapsed, ?_⟩
    simp [patchMissing]

theorem C7_notice_or_rows_witness :
    patchMissing (⟨"logo.png", "added", 0, 0, none⟩ : FileDiff).patch = true ∧
    (DiffView ⟨"logo.png", "added", 0, 0, none⟩ false).rows = [] :=
  ⟨by decide, (C7_notice_or_rows ⟨"logo.png", "added", 0, 0, none⟩ false).2 (by decide)⟩

/-! ## The comment filter: claims -/

/-- C8: a comment is removed from its start marker to the next end marker,
line breaks included: for all a, c, b where a contains no start marker and c
contains no end marker, filterComments (a ++ "<!--" ++ c ++ "-->" ++ b) is
a ++ filterComments b; in particular "<!-- secret -->visible" gives
"visible". -/
theorem C8_shortest_span_removed (a c b : List Char)
    (ha : ¬ "<!--".toList <:+: a) (hc : ¬ "-->".toList <:+: c) :
    filterComments (some (a ++ "<!--".toList ++ c ++ "-->".toList ++ b)) =
      a ++ filterComments (some b) ∧
    filterComments (some "<!-- secret -->visible".toList) = "visible".toList := by
  refine ⟨?_, by decide⟩
  rw [filterComments_some, filterComments_some]
  show stripComments (a ++ ['<', '!', '-', '-'] ++ c ++ ['-', '-', '>'] ++ b) = _
  simp only [List.append_assoc, List.cons_append, List.nil_append]
  rw [stripComments_append_open _ ha]
  have hm : matchComment ('<' :: '!' :: '-' :: '-' :: (c ++ '-' :: '-' :: '>' :: b)) = some b := by
    simp only [matchComment, startsWith, beq_self_eq_true, Bool.and_self, if_true,
      List.drop_succ_cons, List.drop_zero]
    exact afterClose_append_close b hc
  rw [stripComments_cons_some hm]

theorem C8_shortest_span_removed_witness :
    ¬ "<!--".toList <:+: "see <!- ".toList ∧ ¬ "-->".toList <:+: " a\n<!-- b -".toList ∧
    filterComments (some ("see <!- ".toList ++ "<!--".toList ++ " a\n<!-- b -".toList ++
        "-->".toList ++ " x<!---->y".toList)) =
      "see <!- ".toList ++ filterComments (some " x<!---->y".toList) :=
  ⟨by decide, by decide,
    (C8_shortest_span_removed "see <!- ".toList " a\n<!-- b -".toList " x<!---->y".toList
      (by decide) (by decide)).1⟩

/-- C9, as stated, fails: a start marker without an end marker is not removed,
so filtering "a<!--r" does not yield "a". -/
theorem C9_unterminated_counterexample :
    ¬ "<!--".toList <:+: "a".toList ∧ ¬ "-->".toList <:+: "r".toList ∧
    filterComments (some ("a".toList ++ "<!--".toList ++ "r".toList)) ≠ "a".toList := by
  decide

/-- C9, amended: an unterminated comment is left in place: for every a
containing no start marker and every r containing no end marker, filtering
a ++ "<!--" ++ r yields a ++ "<!--" ++ r unchanged. -/
theorem C9_unterminated_kept (a r : List Char)
    (ha : ¬ "<!--".toList <:+: a) (hr : ¬ "-->".toList <:+: r) :
    filterComments (some (a ++ "<!--".toList ++ r)) = a ++ "<!--".toList ++ r := by
  rw [filterComments_some]
  show stripComments (a ++ ['<', '!', '-', '-'] ++ r) = a ++ ['<', '!', '-', '-'] ++ r
  simp only [List.append_assoc, List.cons_append, List.nil_append]
  rw [stripComments_append_open _ ha]
  rw [stripComments_of_no_close (s := '<' :: '!' :: '-' :: '-' :: r) hr]

theorem C9_unterminated_kept_witness :
    ¬ "<!--".toList <:+: "a-->".toList ∧ ¬ "-->".toList <:+: "> r\n--".toList ∧
    filterComments (some ("a-->".toList ++ "<!--".toList ++ "> r\n--".toList)) =
      "a--><!--> r\n--".toList :=
  ⟨by decide, by decide,
    C9_unterminated_kept "a-->".toList "> r\n--".toList (by decide) (by decide)⟩

/-- C10, as stated, fails: removing a comment can join the text around it into a
new comment, which a second pass removes: "<!-<!-- -->- y -->" gives
"<!-- y -->" after one pass and the empty string after two. -/
theorem C10_idempotence_counterexample :
    filterComments (some "<!-<!-- -->- y -->".toList) = "<!-- y -->".toList ∧
    filterComments (some (filterComments (some "<!-<!-- -->- y -->".toList))) = [] ∧
    filterComments (some (filterComments (some "<!-<!-- -->- y -->".toList))) ≠
      filterComments (some "<!-<!-- -->- y -->".toList) := by
  decide

/-- C10, amended: a second pass removes nothing, that is
filterComments (filterComments x) = filterComments x, exactly for the inputs x
whose one-pass output contains no start marker followed further on by an end
marker; "<!-- secret -->visible" is such an input and gives "visible" after
one pass and after two. -/
theorem C10_second_pass_iff (x : List Char) :
    (filterComments (some (filterComments (some x))) = filterComments (some x) ↔
      ¬ ∃ u v w, filterComments (some x) = u ++ "<!--".toList ++ v ++ "-->".toList ++ w) ∧
    filterComments (some "<!-- secret -->visible".toList) = "visible".toList ∧
    filterComments (some (filterComments (some "<!-- secret -->visible".toList))) =
      "visible".toList := by
  refine ⟨?_, by decide, by decide⟩
  rw [filterComments_some (filterComments (some x)), stripComments_eq_self_iff]
  show _ ↔ ¬ ∃ u v w,
    filterComments (some x) = u ++ ['<', '!', '-', '-'] ++ v ++ ['-', '-', '>'] ++ w
  simp only [List.append_assoc, List.cons_append, List.nil_append]

/-! ## Lemmas on numbers -/

theorem isDigit_digitChar (d : Nat) : isDigit (digitChar d) = true := by
  unfold digitChar
  split <;> rfl

theorem digitValue_digitChar {d : Nat} (h : d < 10) : digitValue (digitChar d) = d := by
  interval_cases d <;> rfl

theorem isDigit_of_mem_natDigits (fuel n : Nat) (acc : List Char)
    (hacc : ∀ c ∈ acc, isDigit c = true) : ∀ c ∈ natDigits fuel n acc, isDigit c = true := by
  induction fuel generalizing n acc with
  | zero => simpa [natDigits] using hacc
  | succ fuel ih =>
    have hcons : ∀ c ∈ digitChar (n % 10) :: acc, isDigit c = true := by
      intro c hc
      rcases List.mem_cons.1 hc with h | h
      · rw [h]
        exact isDigit_digitChar _
      · exact hacc c h
    simp only [natDigits]
    split
    · exact hcons
    · exact ih _ _ hcons

theorem natDigits_ne_nil (fuel n : Nat) (acc : List Char) :
    natDigits (fuel + 1) n acc ≠ [] := by
  induction fuel generalizing n acc with
  | zero =>
    simp only [natDigits]
    split <;> simp
  | succ fuel ih =>
    rw [natDigits]
    split
    · simp
    · exact ih _ _

theorem foldl_natDigits (fuel n : Nat) (acc : List Char) (h : n < fuel) :
    List.foldl (fun v c => 10 * v + digitValue c) 0 (natDigits fuel n acc) =
      List.foldl (fun v c => 10 * v + digitValue c) n acc := by
  induction fuel generalizing n acc with
  | zero => omega
  | succ fuel ih =>
    have hd : digitValue (digitChar (n % 10)) = n % 10 :=
      digitValue_digitChar (Nat.mod_lt _ (by decide))
    simp only [natDigits]
    split
    · rename_i h0
      simp only [List.foldl_cons, hd]
      congr 1
      omega
    · rename_i h0
      rw [ih _ _ (by omega)]
      simp only [List.foldl_cons, hd]
      congr 1
      omega

theorem natToString_ne_nil (n : Nat) : natToString n ≠ [] :=
  natDigits_ne_nil n n []

theorem isDigit_of_mem_natToString (n : Nat) : ∀ c ∈ natToString n, isDigit c = true :=
  isDigit_of_mem_natDigits _ _ _ (by simp)

theorem digitsValue_natToString (n : Nat) : digitsValue (natToString n) = n := by
  unfold digitsValue natToString
  rw [foldl_natDigits _ _ _ (Nat.lt_succ_self n)]
  rfl

theorem isWhiteSpace_of_isDigit {c : Char} (h : isDigit c = true) : isWhiteSpace c = false := by
  simp only [isDigit, Bool.and_eq_true, decide_eq_true_eq] at h
  simp only [isWhiteSpace, List.contains, List.elem, Bool.or_eq_false_iff, Bool.and_eq_false_iff,
    decide_eq_false_iff_not]
  refine ⟨?_, by omega⟩
  repeat (first | rfl | (split; (· rename_i he; simp at he; omega)))

theorem ne_sign_of_isDigit {c : Char} (h : isDigit c = true) :
    (c == '-') = false ∧ (c == '+') = false := by
  constructor
  · cases hc : c == '-' with
    | false => rfl
    | true =>
      rw [beq_iff_eq] at hc
      subst hc
      exact absurd h (by decide)
  · cases hc : c == '+' with
    | false => rfl
    | true =>
      rw [beq_iff_eq] at hc
      subst hc
      exact absurd h (by decide)

theorem ofInt_of_lt {v : Int} (h : v.natAbs < 9007199254740992) :
    JSNum.ofInt v = JSNum.int v := by
  simp only [JSNum.ofInt, if_pos h]

/-- What `parseInt` reads from a numeral followed by text that does not start
with a digit: the Number nearest to the value of the numeral. -/
theorem parseInt_digits {z rest : List Char} (hz : z ≠ [])
    (hd : ∀ c ∈ z, isDigit c = true) (hrest : rest.takeWhile isDigit = []) :
    parseInt (z ++ rest) = JSNum.ofInt (digitsValue z) := by
  obtain ⟨c, cs, rfl⟩ := List.exists_cons_of_ne_nil hz
  have hc := hd c (List.mem_cons_self _ _)
  have hws := isWhiteSpace_of_isDigit hc
  obtain ⟨hm, hp⟩ := ne_sign_of_isDigit hc
  have htake : List.takeWhile isDigit (c :: cs ++ rest) = c :: cs := by
    rw [List.takeWhile_append_of_pos hd, hrest, List.append_nil]
  unfold parseInt
  rw [List.cons_append] at htake ⊢
  rw [List.dropWhile_cons_of_neg (by simp [hws])]
  simp [startsWith, hm, hp, htake]

theorem parseInt_neg_digits {z rest : List Char} (hz : z ≠ [])
    (hd : ∀ c ∈ z, isDigit c = true) (hrest : rest.takeWhile isDigit = []) :
    parseInt ('-' :: (z ++ rest)) = JSNum.ofInt (-(digitsValue z : Int)) := by
  have htake : List.takeWhile isDigit (z ++ rest) = z := by
    rw [List.takeWhile_append_of_pos hd, hrest, List.append_nil]
  have hne : z.isEmpty = false := by
    cases z with
    | nil => exact absurd rfl hz
    | cons c cs => rfl
  unfold parseInt
  rw [List.dropWhile_cons_of_neg (by decide)]
  simp [startsWith, htake, hne]

/-- The numeral of any natural number is read as the Number nearest to it. -/
theorem parseInt_natToString_ofInt (n : Nat) (rest : List Char)
    (hrest : rest.takeWhile isDigit = []) :
    parseInt (natToString n ++ rest) = JSNum.ofInt n := by
  rw [parseInt_digits (natToString_ne_nil n) (isDigit_of_mem_natToString n) hrest,
    digitsValue_natToString]

/-- The numeral of a natural number below `2 ^ 53` is read as that number. -/
theorem parseInt_natToString (n : Nat) (rest : List Char)
    (hrest : rest.takeWhile isDigit = []) (hn : n < 9007199254740992) :
    parseInt (natToString n ++ rest) = JSNum.int n := by
  rw [parseInt_natToString_ofInt n rest hrest, ofInt_of_lt (by simpa using hn)]

theorem natAbs_lt_of_isSafeInteger {v : Int} (h : (JSNum.int v).isSafeInteger = true) :
    v.natAbs < 9007199254740992 := by
  simpa [JSNum.isSafeInteger] using h

/-- Reading back a printed safe integer gives the integer. -/
theorem parseInt_toString_int (v : Int) (hv : v.natAbs < 9007199254740992) :
    parseInt (JSNum.int v).toString = JSNum.int v := by
  simp only [JSNum.toString]
  split
  · have := @parseInt_neg_digits (natToString v.natAbs) [] (natToString_ne_nil v.natAbs)
      (isDigit_of_mem_natToString v.natAbs) rfl
    rw [List.append_nil, digitsValue_natToString] at this
    rw [this, ofInt_of_lt (by omega)]
    congr 1
    omega
  · have := parseInt_natToString v.natAbs [] rfl hv
    rw [List.append_nil] at this
    rw [this]
    congr 1
    omega

/-- Reading back a printed Number gives the Number, for `NaN` and for the safe
integers. -/
theorem parseInt_toString (x : JSNum) (hx : x = JSNum.nan ∨ x.isSafeInteger = true) :
    parseInt x.toString = x := by
  rcases hx with rfl | hx
  · rfl
  · cases x with
    | int v => exact parseInt_toString_int v (natAbs_lt_of_isSafeInteger hx)
    | nan => rfl
    | big negative m => simp [JSNum.isSafeInteger] at hx
    | inf negative => simp [JSNum.isSafeInteger] at hx

/-- Doubles of magnitude `2 ^ 53` or more are printed with the shortest digits
that read back as the same double, in exponent notation from `10 ^ 21` on. -/
theorem bigToString_examples :
    bigToString 9007199254740992 = "9007199254740992".toList ∧
    bigToString 1152921504606846976 = "1152921504606847000".toList ∧
    bigToString 1000000000000000000000 = "1e+21".toList ∧
    bigToString 1180591620717411303424 = "1.1805916207174113e+21".toList ∧
    bigToString 99999999999999991611392 = "1e+23".toList := by
  decide

/-- How `parseInt` treats white space, signs, text after the digits and numerals
of `2 ^ 53` or more. -/
theorem parseInt_examples :
    parseInt " +42px".toList = JSNum.int 42 ∧
    parseInt "-0".toList = JSNum.int 0 ∧
    parseInt "9007199254740991".toList = JSNum.int 9007199254740991 ∧
    parseInt "9007199254740992".toList = JSNum.big false 9007199254740992 ∧
    parseInt "-9007199254740995".toList = JSNum.big true 9007199254740996 ∧
    parseInt "1e+21".toList = JSNum.int 1 ∧
    parseInt "Infinity".toList = JSNum.nan := by
  decide

set_option maxRecDepth 100000 in
/-- A numeral beyond the largest double is read as an infinity. -/
theorem parseInt_long_numeral :
    parseInt ('1' :: List.replicate 309 '0') = JSNum.inf false ∧
    parseInt ('-' :: '1' :: List.replicate 309 '0') = JSNum.inf true ∧
    (JSNum.inf false).toString = "Infinity".toList := by
  decide

/-! ## Lemmas on the filter of the list page -/

theorem ne_nil_of_isWord {w : List Char} (h : isWord w = true) : w ≠ [] := by
  cases w with
  | nil => simp [isWord] at h
  | cons c cs => simp

theorem takeWhile_of_isWord {w : List Char} (h : isWord w = true) :
    w.takeWhile isWordChar = w := by
  rw [List.takeWhile_eq_self_iff]
  simp only [isWord, Bool.and_eq_true, List.all_eq_true] at h
  exact h.2

theorem matchIsWord_build {w : List Char} (h : isWord w = true) :
    matchIsWord ('i' :: 's' :: ':' :: w) = some w := by
  have hne : w.isEmpty = false := by
    cases w with
    | nil => simp [isWord] at h
    | cons c cs => rfl
  simp [matchIsWord, startsWith, takeWhile_of_isWord h, hne]

theorem parseQueryFilter_build {w : List Char} (h : isWord w = true) :
    parseQueryFilter (some (buildQueryFilter w)) = w := by
  show parseQueryFilter (some ('i' :: 's' :: ':' :: w)) = w
  simp only [parseQueryFilter, matchIsWord_build h]

theorem isWord_of_matchIsWord {q w : List Char} (h : matchIsWord q = some w) :
    isWord w = true := by
  induction q with
  | nil => simp [matchIsWord] at h
  | cons c cs ih =>
    simp only [matchIsWord] at h
    split at h
    · rename_i hc
      simp only [Option.some.injEq] at h
      subst h
      simp only [Bool.and_eq_true] at hc
      simp only [isWord, Bool.and_eq_true, List.all_eq_true]
      exact ⟨hc.2, fun x hx => List.mem_takeWhile_imp hx⟩
    · exact ih h

/-- The filter read from the address is always a non-empty word. -/
theorem isWord_parseQueryFilter (q : Option (List Char)) :
    isWord (parseQueryFilter q) = true := by
  rcases q with _ | _ | ⟨c, cs⟩
  · decide
  · decide
  · simp only [parseQueryFilter]
    cases h : matchIsWord (c :: cs) with
    | none => decide
    | some w => exact isWord_of_matchIsWord h

theorem matchIsWord_eq_none {q : List Char}
    (h : ¬ ∃ u c v, q = u ++ 'i' :: 's' :: ':' :: c :: v ∧ isWordChar c = true) :
    matchIsWord q = none := by
  induction q with
  | nil => rfl
  | cons x xs ih =>
    simp only [matchIsWord]
    split
    · rename_i hc
      exfalso
      simp only [Bool.and_eq_true] at hc
      obtain ⟨t, ht⟩ := (startsWith_iff_isPrefixOf _ _).1 hc.1
      rw [← ht] at hc
      simp only [List.cons_append, List.nil_append, List.drop_succ_cons, List.drop_zero] at hc
      cases t with
      | nil => simp at hc
      | cons c v =>
        have hw : isWordChar c = true := by
          by_contra hn
          rw [List.takeWhile_cons_of_neg hn] at hc
          simp at hc
        exact h ⟨[], c, v, by rw [← ht]; rfl, hw⟩
    · apply ih
      rintro ⟨u, c, v, rfl, hw⟩
      exact h ⟨x :: u, c, v, rfl, hw⟩

theorem get_page_updateParams (p : JSNum) (f : List Char) :
    SearchParams.get (updateParams p f) "page" = some p.toString := by
  simp [updateParams, SearchParams.get]

theorem get_q_updateParams (p : JSNum) (f : List Char) :
    SearchParams.get (updateParams p f) "q" = some (buildQueryFilter f) := by
  simp [updateParams, SearchParams.get]

theorem orElse_toString (p : JSNum) (hp : p = JSNum.nan ∨ p.isSafeInteger = true) :
    orElse (some p.toString) ['1'] = p.toString := by
  cases p with
  | nan => rfl
  | int v =>
    simp only [JSNum.toString]
    split
    · rfl
    · cases h : natToString v.natAbs with
      | nil => exact absurd h (natToString_ne_nil _)
      | cons c cs => rfl
  | big negative m => simp [JSNum.isSafeInteger] at hp
  | inf negative => simp [JSNum.isSafeInteger] at hp

/-- Reading the parameters `updateParams` writes gives the page written when it
is `NaN` or a safe integer, and the filter written when it is a word. -/
theorem decode_updateParams (p : JSNum) (f : List Char)
    (hp : p = JSNum.nan ∨ p.isSafeInteger = true) :
    (decode (updateParams p f)).page = p ∧
    (isWord f = true → (decode (updateParams p f)).filter = f) := by
  simp only [decode, get_page_updateParams, get_q_updateParams, orElse_toString p hp,
    parseInt_toString p hp, true_and]
  exact fun h => parseQueryFilter_build h

/-- A filter change always writes page 1. -/
theorem decode_updateParams_one (f : List Char) :
    (decode (updateParams (JSNum.int 1) f)).page = JSNum.int 1 :=
  (decode_updateParams (JSNum.int 1) f (Or.inr (by decide))).1

theorem decode_canonical (n : Nat) (w : List Char) (hw : isWord w = true)
    (hn : n < 9007199254740992) :
    decode [("page", natToString n), ("q", "is:".toList ++ w)] = ⟨JSNum.int n, w⟩ := by
  have hp : SearchParams.get [("page", natToString n), ("q", "is:".toList ++ w)] "page" =
      some (natToString n) := by
    simp [SearchParams.get]
  have hq : SearchParams.get [("page", natToString n), ("q", "is:".toList ++ w)] "q" =
      some (buildQueryFilter w) := by
    simp [SearchParams.get, buildQueryFilter]
  have hor : orElse (some (natToString n)) ['1'] = natToString n := by
    cases hs : natToString n with
    | nil => exact absurd hs (natToString_ne_nil n)
    | cons c cs => rfl
  have hint := parseInt_natToString n [] rfl hn
  rw [List.append_nil] at hint
  simp only [decode, hp, hq, hor, hint, parseQueryFilter_build hw]

/-! ## The comment filter: totality -/

/-- C11: the comment filter is total: for an absent input and for the empty
string it returns the empty string, and for every string it returns a string,
reached by the replace loop within as many steps as the string has characters
(more fuel does not change it) and no longer than the input. -/
theorem C11_filterComments_total (s : List Char) (k : Nat) :
    filterComments none = [] ∧ filterComments (some "".toList) = [] ∧
    replaceComments (s.length + k) s = filterComments (some s) ∧
    (filterComments (some s)).length ≤ s.length := by
  refine ⟨rfl, rfl, ?_, ?_⟩
  · rw [filterComments_some, stripComments]
    exact replaceComments_fuel _ _ _ (Nat.le_add_right _ _) (Nat.le_refl _)
  · rw [filterComments_some]
    exact length_stripComments_le s

/-! ## The list page: claims -/

/-- C12, as stated, fails in its general part: the page written as the decimal
numeral of the positive integer 9007199254740993, which is 2 ^ 53 + 1, does
not decode to that integer but to the double next to it, 9007199254740992. -/
theorem C12_large_numeral_counterexample :
    natToString 9007199254740993 = "9007199254740993".toList ∧
    (decode [("page", "9007199254740993".toList)]).page =
      JSNum.big false 9007199254740992 ∧
    (decode [("page", "9007199254740993".toList)]).page ≠ JSNum.int 9007199254740993 := by
  decide

/-- C12, amended: without parameters the decoded state is page 1, filter "open";
with page "3" and q "is:closed" it is page 3, filter "closed"; whenever page is
absent the decoded page is 1 whatever q is, as for q "is:all"; and for every
natural number n below 2 ^ 53, hence every positive integer below 2 ^ 53, the
page written as the decimal numeral of n decodes to n. -/
theorem C12_decode_defaults_and_values (searchParams rest : SearchParams) (n : Nat)
    (h : searchParams.get "page" = none) (hn : n < 9007199254740992) :
    decode [] = ⟨JSNum.int 1, "open".toList⟩ ∧
    decode [("page", "3".toList), ("q", "is:closed".toList)] =
      ⟨JSNum.int 3, "closed".toList⟩ ∧
    (decode [("q", "is:all".toList)]).page = JSNum.int 1 ∧
    (decode searchParams).page = JSNum.int 1 ∧
    (decode (("page", natToString n) :: rest)).page = JSNum.int n := by
  refine ⟨by decide, by decide, by decide, ?_, ?_⟩
  · simp only [decode, h, orElse]
    rfl
  · have hget : SearchParams.get (("page", natToString n) :: rest) "page" =
        some (natToString n) := by
      simp [SearchParams.get]
    have hor : orElse (some (natToString n)) ['1'] = natToString n := by
      cases hs : natToString n with
      | nil => exact absurd hs (natToString_ne_nil n)
      | cons c cs => rfl
    have := parseInt_natToString n [] rfl hn
    rw [List.append_nil] at this
    simp only [decode, hget, hor, this]

theorem C12_decode_defaults_and_values_witness :
    SearchParams.get [("q", "is:closed".toList), ("sort", "new".toList)] "page" = none ∧
    9007199254740991 < 9007199254740992 ∧
    (decode [("q", "is:closed".toList), ("sort", "new".toList)]).page = JSNum.int 1 ∧
    (decode [("page", "9007199254740991".toList), ("q", "is:all".toList)]).page =
      JSNum.int 9007199254740991 :=
  ⟨by decide, by decide,
    (C12_decode_defaults_and_values [("q", "is:closed".toList), ("sort", "new".toList)]
      [("q", "is:all".toList)] 9007199254740991 (by decide) (by decide)).2.2.2⟩

/-- C13, as stated, fails: the non-numeric page value "abc" does not decode to
page 1 but to NaN. -/
theorem C13_non_numeric_counterexample :
    (decode [("page", "abc".toList)]).page = JSNum.nan ∧
    (decode [("page", "abc".toList)]).page ≠ JSNum.int 1 := by
  decide

/-- C13, amended: for every page parameter value that is absent or the empty
string, the decoded page is 1; a value that is not numeric is not replaced by
a default: "abc" decodes to NaN. -/
theorem C13_absent_or_empty_page (searchParams : SearchParams)
    (h : searchParams.get "page" = none ∨ searchParams.get "page" = some "".toList) :
    (decode searchParams).page = JSNum.int 1 ∧
    (decode [("page", "abc".toList)]).page = JSNum.nan := by
  refine ⟨?_, by decide⟩
  rcases h with h | h <;> simp only [decode, h] <;> rfl

theorem C13_absent_or_empty_page_witness :
    SearchParams.get [("page", "".toList), ("q", "is:all".toList)] "page" = some "".toList ∧
    (decode [("page", "".toList), ("q", "is:all".toList)]).page = JSNum.int 1 :=
  ⟨by decide,
    (C13_absent_or_empty_page [("page", "".toList), ("q", "is:all".toList)]
      (Or.inr (by decide))).1⟩

/-- C14, as stated, fails: the page values "0" and "-5" decode to the pages 0
and -5, which are not integers of at least 1. -/
theorem C14_page_below_one_counterexample :
    (decode [("page", "0".toList)]).page = JSNum.int 0 ∧
    (decode [("page", "0".toList)]).page.atLeastOne = false ∧
    (decode [("page", "-5".toList)]).page = JSNum.int (-5) ∧
    (decode [("page", "-5".toList)]).page.atLeastOne = false := by
  decide

/-- C14, amended: the decoded page is an integer of at least 1 whenever the page
value is absent, empty (page 1), or the decimal numeral of a positive integer n
below 2 ^ 53 followed by text that does not start with a digit (page n, as
"2xyz" gives 2); other values are not brought into that range: "0" decodes to
0 and "-5" to -5. -/
theorem C14_page_at_least_one (searchParams : SearchParams) (n : Nat) (rest : List Char)
    (hn : 1 ≤ n) (hn2 : n < 9007199254740992) (hrest : rest.takeWhile isDigit = [])
    (h : searchParams.get "page" = none ∨ searchParams.get "page" = some "".toList ∨
      searchParams.get "page" = some (natToString n ++ rest)) :
    (decode searchParams).page.atLeastOne = true ∧
    (searchParams.get "page" = some (natToString n ++ rest) →
      (decode searchParams).page = JSNum.int n) ∧
    (decode [("page", "2xyz".toList)]).page = JSNum.int 2 ∧
    (decode [("page", "0".toList)]).page = JSNum.int 0 ∧
    (decode [("page", "-5".toList)]).page = JSNum.int (-5) := by
  have hnum : searchParams.get "page" = some (natToString n ++ rest) →
      (decode searchParams).page = JSNum.int n := by
    intro h3
    have hor : orElse (some (natToString n ++ rest)) ['1'] = natToString n ++ rest := by
      cases hs : natToString n with
      | nil => exact absurd hs (natToString_ne_nil n)
      | cons c cs => rfl
    simp only [decode, h3, hor, parseInt_natToString n rest hrest hn2]
  refine ⟨?_, hnum, by decide, by decide, by decide⟩
  rcases h with h | h | h
  · simp only [decode, h]
    rfl
  · simp only [decode, h]
    rfl
  · rw [hnum h]
    simp only [JSNum.atLeastOne, decide_eq_true_eq]
    omega

theorem C14_page_at_least_one_witness :
    (1 ≤ 17 ∧ 17 < 9007199254740992 ∧ " of 20".toList.takeWhile isDigit = [] ∧
      SearchParams.get [("page", natToString 17 ++ " of 20".toList)] "page" =
        some (natToString 17 ++ " of 20".toList)) ∧
    (decode [("page", natToString 17 ++ " of 20".toList)]).page.atLeastOne = true :=
  ⟨⟨by decide, by decide, by decide, by decide⟩,
    (C14_page_at_least_one [("page", natToString 17 ++ " of 20".toList)] 17 " of 20".toList
      (by decide) (by decide) (by decide) (Or.inr (Or.inr (by decide)))).1⟩

/-- C15, as stated, fails: the value "sort:new is:closed" is not of the form
"is:" followed by a word, yet its filter is "closed", not "open". -/
theorem C15_not_of_the_form_counterexample :
    (¬ ∃ w, isWord w = true ∧ "sort:new is:closed".toList = "is:".toList ++ w) ∧
    parseQueryFilter (some "sort:new is:closed".toList) = "closed".toList ∧
    parseQueryFilter (some "sort:new is:closed".toList) ≠ "open".toList := by
  refine ⟨?_, by decide, by decide⟩
  rintro ⟨w, _, h⟩
  have h2 : 's' :: "ort:new is:closed".toList = 'i' :: ("s:".toList ++ w) := h
  exact absurd (List.cons.inj h2).1 (by decide)

/-- C15, amended: when q is absent, empty, or contains no "is:" immediately
followed by a word character, the filter is "open"; when q is "is:" followed
by a non-empty word w of letters, digits and underscores, the filter is w
verbatim, with no validation against open, closed, all: "is:bogus" decodes to
"bogus". -/
theorem C15_filter_decoding (q w : List Char)
    (hq : ¬ ∃ u c v, q = u ++ "is:".toList ++ c :: v ∧ isWordChar c = true)
    (hw : isWord w = true) :
    parseQueryFilter none = "open".toList ∧
    parseQueryFilter (some "".toList) = "open".toList ∧
    parseQueryFilter (some q) = "open".toList ∧
    parseQueryFilter (some ("is:".toList ++ w)) = w ∧
    parseQueryFilter (some "is:bogus".toList) = "bogus".toList := by
  refine ⟨rfl, rfl, ?_, parseQueryFilter_build hw, by decide⟩
  have hnone : matchIsWord q = none := by
    apply matchIsWord_eq_none
    rintro ⟨u, c, v, hq2, hc⟩
    exact hq ⟨u, c, v, by rw [hq2]; simp, hc⟩
  cases q with
  | nil => rfl
  | cons c cs => simp only [parseQueryFilter, hnone]

theorem C15_filter_decoding_witness :
    (¬ ∃ u c v, "closed".toList = u ++ "is:".toList ++ c :: v ∧ isWordChar c = true) ∧
    isWord "bogus_1".toList = true ∧
    parseQueryFilter (some "closed".toList) = "open".toList ∧
    parseQueryFilter (some ("is:".toList ++ "bogus_1".toList)) = "bogus_1".toList :=
  have hq : ¬ ∃ u c v, "closed".toList = u ++ "is:".toList ++ c :: v ∧ isWordChar c = true := by
    rintro ⟨u, c, v, h, _⟩
    have hmem : ':' ∈ "closed".toList := by
      rw [h]
      simp
    revert hmem
    decide
  ⟨hq, by decide,
    (C15_filter_decoding "closed".toList "bogus_1".toList hq (by decide)).2.2.1,
    (C15_filter_decoding "closed".toList "bogus_1".toList hq (by decide)).2.2.2.1⟩

/-- C16, as stated, fails: the address with page 1000000000000000000000 decodes
to the state of page 10 ^ 21; encoding that state writes the page as "1e+21",
and decoding that gives page 1, not the state encoded. -/
theorem C16_exponent_notation_counterexample :
    decode [("page", "1000000000000000000000".toList), ("q", "is:open".toList)] =
      ⟨JSNum.big false 1000000000000000000000, "open".toList⟩ ∧
    encode ⟨JSNum.big false 1000000000000000000000, "open".toList⟩ =
      [("page", "1e+21".toList), ("q", "is:open".toList)] ∧
    decode (encode ⟨JSNum.big false 1000000000000000000000, "open".toList⟩) =
      ⟨JSNum.int 1, "open".toList⟩ ∧
    decode (encode ⟨JSNum.big false 1000000000000000000000, "open".toList⟩) ≠
      ⟨JSNum.big false 1000000000000000000000, "open".toList⟩ := by
  decide

/-- C16, amended: for every state whose page is a safe integer, that is of
magnitude below 2 ^ 53, and whose filter is a non-empty word, as open, closed
and all are, decoding the parameters produced by encoding the state gives back
the state; so it does for every state decoded from an address whose page is a
safe integer. -/
theorem C16_decode_encode (s : PageFilterState) (searchParams : SearchParams)
    (h : isWord s.filter = true) (hp : s.page.isSafeInteger = true)
    (hsp : (decode searchParams).page.isSafeInteger = true) :
    decode (encode s) = s ∧
    decode (encode (decode searchParams)) = decode searchParams := by
  have key : ∀ t : PageFilterState, isWord t.filter = true → t.page.isSafeInteger = true →
      decode (encode t) = t := by
    intro t ht htp
    obtain ⟨h1, h2⟩ := decode_updateParams t.page t.filter (Or.inr htp)
    have h3 := h2 ht
    cases t with
    | mk page filter =>
      simp only [encode] at h1 h3 ⊢
      cases hd : decode (updateParams page filter) with
      | mk page2 filter2 =>
        rw [hd] at h1 h3
        simp only at h1 h3
        rw [h1, h3]
  exact ⟨key s h hp, key _ (isWord_parseQueryFilter _) hsp⟩

theorem C16_decode_encode_witness :
    isWord (⟨JSNum.int 3, "closed".toList⟩ : PageFilterState).filter = true ∧
    (⟨JSNum.int 3, "closed".toList⟩ : PageFilterState).page.isSafeInteger = true ∧
    (decode [("page", "12".toList), ("q", "x is:all y".toList)]).page.isSafeInteger = true ∧
    decode (encode ⟨JSNum.int 3, "closed".toList⟩) = ⟨JSNum.int 3, "closed".toList⟩ ∧
    decode (encode (decode [("page", "12".toList), ("q", "x is:all y".toList)])) =
      decode [("page", "12".toList), ("q", "x is:all y".toList)] :=
  ⟨by decide, by decide, by decide,
    (C16_decode_encode ⟨JSNum.int 3, "closed".toList⟩
      [("page", "12".toList), ("q", "x is:all y".toList)] (by decide) (by decide)
      (by decide)).1,
    (C16_decode_encode ⟨JSNum.int 3, "closed".toList⟩
      [("page", "12".toList), ("q", "x is:all y".toList)] (by decide) (by decide)
      (by decide)).2⟩

/-- C17, as stated, fails: the query of page 9007199254740993, a positive integer
in decimal, and q "is:open" is not reproduced: the decoded page is the double
9007199254740992, and encoding writes that. -/
theorem C17_large_page_counterexample :
    encode (decode [("page", "9007199254740993".toList), ("q", "is:open".toList)]) =
      [("page", "9007199254740992".toList), ("q", "is:open".toList)] ∧
    encode (decode [("page", "9007199254740993".toList), ("q", "is:open".toList)]) ≠
      [("page", "9007199254740993".toList), ("q", "is:open".toList)] := by
  decide

/-- C17, amended: encoding emits exactly two parameters, page with the Number
printed, the decimal numeral for an integer page below 2 ^ 53, and q with "is:"
in front of the filter; and for every query of a page that is the decimal
numeral of a natural number below 2 ^ 53, hence of a positive integer below
2 ^ 53, and a q that is "is:" followed by a non-empty word, encoding the
decoded state reproduces the query. -/
theorem C17_encode_decode_canonical (state : PageFilterState) (n : Nat) (w : List Char)
    (hw : isWord w = true) (hn : n < 9007199254740992) :
    encode state = [("page", state.page.toString), ("q", "is:".toList ++ state.filter)] ∧
    (JSNum.int n).toString = natToString n ∧
    encode (decode [("page", natToString n), ("q", "is:".toList ++ w)]) =
      [("page", natToString n), ("q", "is:".toList ++ w)] := by
  have hstr : (JSNum.int n).toString = natToString n := by
    simp [JSNum.toString]
  refine ⟨rfl, hstr, ?_⟩
  have hdec := decode_canonical n w hw hn
  rw [hdec]
  simp only [encode, updateParams, buildQueryFilter, hstr]

theorem C17_encode_decode_canonical_witness :
    isWord "closed".toList = true ∧ 1203 < 9007199254740992 ∧
    encode (decode [("page", "1203".toList), ("q", "is:closed".toList)]) =
      [("page", "1203".toList), ("q", "is:closed".toList)] :=
  ⟨by decide, by decide,
    (C17_encode_decode_canonical ⟨JSNum.int 1, "open".toList⟩ 1203 "closed".toList
      (by decide) (by decide)).2.2⟩

/-- C18, as stated, fails for a page change: to the new page 10 ^ 21 the code
writes the page as "1e+21", and the state decoded from that has page 1. -/
theorem C18_page_change_counterexample :
    handlePageChange [("page", "7".toList), ("q", "is:all".toList)]
        (JSNum.big false 1000000000000000000000) =
      [("page", "1e+21".toList), ("q", "is:all".toList)] ∧
    decode (handlePageChange [("page", "7".toList), ("q", "is:all".toList)]
        (JSNum.big false 1000000000000000000000)) = ⟨JSNum.int 1, "all".toList⟩ ∧
    (decode (handlePageChange [("page", "7".toList), ("q", "is:all".toList)]
        (JSNum.big false 1000000000000000000000))).page ≠
      JSNum.big false 1000000000000000000000 := by
  decide

/-- C18, amended: a filter change to a filter f that is a non-empty word, as
open, closed and all are, yields the state of page 1 and filter f, and the page
after a filter change is 1 for any filter text, whatever the page before; a
page change to a safe integer p, that is of magnitude below 2 ^ 53, yields the
state of page p and the filter the page had before. -/
theorem C18_state_change_policy (searchParams : SearchParams) (f g : List Char) (p : JSNum)
    (hf : isWord f = true) (hp : p.isSafeInteger = true) :
    decode (handleFilterChange f) = ⟨JSNum.int 1, f⟩ ∧
    (decode (handleFilterChange g)).page = JSNum.int 1 ∧
    decode (handlePageChange searchParams p) = ⟨p, (decode searchParams).filter⟩ := by
  have key : ∀ (x : JSNum) (w : List Char), isWord w = true → x.isSafeInteger = true →
      decode (updateParams x w) = ⟨x, w⟩ := by
    intro x w hw hx
    obtain ⟨h1, h2⟩ := decode_updateParams x w (Or.inr hx)
    have h3 := h2 hw
    cases hd : decode (updateParams x w) with
    | mk page2 filter2 =>
      rw [hd] at h1 h3
      simp only at h1 h3
      rw [h1, h3]
  exact ⟨key _ _ hf (by decide), decode_updateParams_one g,
    key _ _ (isWord_parseQueryFilter _) hp⟩

theorem C18_state_change_policy_witness :
    isWord "closed".toList = true ∧ (JSNum.int 8).isSafeInteger = true ∧
    decode (handleFilterChange "closed".toList) = ⟨JSNum.int 1, "closed".toList⟩ ∧
    decode (handlePageChange [("page", "7".toList), ("q", "is:all".toList)] (JSNum.int 8)) =
      ⟨JSNum.int 8, (decode [("page", "7".toList), ("q", "is:all".toList)]).filter⟩ :=
  ⟨by decide, by decide,
    (C18_state_change_policy [("page", "7".toList), ("q", "is:all".toList)] "closed".toList
      "open".toList (JSNum.int 8) (by decide) (by decide)).1,
    (C18_state_change_policy [("page", "7".toList), ("q", "is:all".toList)] "closed".toList
      "open".toList (JSNum.int 8) (by decide) (by decide)).2.2⟩

/-! ## Status badge and counts: claims -/

/-- C19: for every pull request the status is Merged whenever a merge timestamp
is set, whatever the state, Open when none is set and the state is open, and
Closed otherwise; the status functions of the list and of the detail page give
the same tag, and the badge colour of the detail page is purple for Merged,
green for Open and red for Closed. -/
theorem C19_status_three_way (pr : PullRequest) :
    PullRequestList.getPRStatus pr = specStatus pr ∧
    PullRequestDetail.getPRStatus (some pr) = PullRequestList.getPRStatus pr ∧
    PullRequestDetail.getStatusColor (some pr) =
      some (if PullRequestDetail.getPRStatus (some pr) = "Merged" then ("#8250df", "#ffffff")
        else if PullRequestDetail.getPRStatus (some pr) = "Open" then ("#1f883d", "#ffffff")
        else ("#cf222e", "#ffffff")) ∧
    PullRequestList.getPRStatus { pr with merged_at := some "2024-05-01T10:00:00Z".toList } =
      "Merged" := by
  refine ⟨?_, rfl, ?_, rfl⟩
  · rcases pr with ⟨nr, ti, st, _ | _ | ⟨c, cs⟩, cf⟩ <;> rfl
  · simp only [PullRequestDetail.getStatusColor, PullRequestDetail.getPRStatus]
    by_cases hm : truthy pr.merged_at = true
    · simp only [hm, if_true]
    · by_cases ho : pr.state = "open".toList
      · simp only [hm, ho, if_true, if_false]
        rfl
      · simp only [hm, ho, if_false]
        rfl

/-- C20: for every count n the plural letter is left out exactly when n is 1,
so 0 is plural: the comment count reads "comment" for 1 and "comments"
otherwise, and both file counts read "file" for 1 and "files" otherwise. -/
theorem C20_singular_iff_one (n : Nat) :
    (pluralS n = [] ↔ n = 1) ∧ pluralS 0 = ['s'] ∧
    IssueDetail.commentCount n =
      (JSNum.int n).toString ++
        (if n = 1 then " comment".toList else " comments".toList) ∧
    PullRequestDetail.filesChanged n =
      (JSNum.int n).toString ++
        (if n = 1 then " file changed".toList else " files changed".toList) ∧
    PullRequestDetail.showingFiles n =
      "Showing ".toList ++ (JSNum.int n).toString ++
        (if n = 1 then " changed file with".toList else " changed files with".toList) := by
  by_cases h : n = 1
  · subst h
    exact ⟨by decide, rfl, rfl, rfl, rfl⟩
  · have hs : pluralS n = ['s'] := by simp [pluralS, h]
    refine ⟨?_, rfl, ?_, ?_, ?_⟩
    · simp [pluralS, h]
    · rw [IssueDetail.commentCount, hs, if_neg h, List.append_assoc]
      rfl
    · rw [PullRequestDetail.filesChanged, hs, if_neg h, List.append_assoc, List.append_assoc]
      rfl
    · rw [PullRequestDetail.showingFiles, hs, if_neg h, List.append_assoc, List.append_assoc]
      rfl

/-! ## Lemmas on the leftmost match of the filter expression -/

theorem isEmpty_takeWhile_isWordChar (l : List Char) :
    (!(l.takeWhile isWordChar).isEmpty) =
      (match l with
       | [] => false
       | c :: _ => isWordChar c) := by
  cases l with
  | nil => rfl
  | cons c cs =>
    cases hc : isWordChar c with
    | true => simp [List.takeWhile_cons, hc]
    | false => simp [List.takeWhile_cons, hc]

theorem matchIsWord_cons (c : Char) (cs : List Char) :
    matchIsWord (c :: cs) =
      if occursAt (c :: cs) 0 = true then some (((c :: cs).drop 3).takeWhile isWordChar)
      else matchIsWord cs := by
  have h : occursAt (c :: cs) 0 =
      (startsWith (c :: cs) ['i', 's', ':'] &&
        !(((c :: cs).drop 3).takeWhile isWordChar).isEmpty) := by
    rw [isEmpty_takeWhile_isWordChar]
    rfl
  rw [h]
  simp only [matchIsWord]

theorem occursAt_succ (c : Char) (cs : List Char) (k : Nat) :
    occursAt (c :: cs) (k + 1) = occursAt cs k := by
  have h : k + 1 + 3 = (k + 3) + 1 := by omega
  simp only [occursAt, h, List.drop_succ_cons]

theorem occursAt_nil (k : Nat) : occursAt [] k = false := by
  simp [occursAt, startsWith]

/-- The match of the expression starts at the leftmost occurrence and takes the
longest run of word characters after `is:`. -/
theorem matchIsWord_of_leftmost (q : List Char) (k : Nat) (h : occursAt q k = true)
    (hlt : ∀ j < k, occursAt q j = false) :
    matchIsWord q = some ((q.drop (k + 3)).takeWhile isWordChar) := by
  induction q generalizing k with
  | nil => rw [occursAt_nil] at h; exact absurd h (by decide)
  | cons c cs ih =>
    rw [matchIsWord_cons]
    cases k with
    | zero => rw [if_pos h]
    | succ k =>
      have h0 := hlt 0 (Nat.succ_pos k)
      rw [h0, if_neg (by decide)]
      rw [occursAt_succ] at h
      have hk : k + 1 + 3 = (k + 3) + 1 := by omega
      rw [hk, List.drop_succ_cons]
      apply ih k h
      intro j hj
      have := hlt (j + 1) (Nat.succ_lt_succ hj)
      rwa [occursAt_succ] at this

theorem matchIsWord_of_no_occurrence (q : List Char)
    (h : ∀ j < q.length, occursAt q j = false) : matchIsWord q = none := by
  induction q with
  | nil => rfl
  | cons c cs ih =>
    rw [matchIsWord_cons, h 0 (Nat.succ_pos _), if_neg (by decide)]
    apply ih
    intro j hj
    have := h (j + 1) (Nat.succ_lt_succ hj)
    rwa [occursAt_succ] at this

/-! ## Fetching the list: claims -/

/-- C21, as stated, fails: with a fetch for page 1, filter "open" under way, the
address changes to page 1, filter "closed"; the fetch for "closed" settles and
its list is shown; then the fetch for "open" settles, and its list replaces the
one shown while the filter is still "closed". -/
theorem C21_late_response_counterexample :
    ((ListView.mount "t".toList [("page", "1".toList), ("q", "is:open".toList)]).run
      [ListEvent.navigate "t".toList [("page", "1".toList), ("q", "is:closed".toList)],
       ListEvent.settle 1 (FetchResult.ok [⟨2, [], "closed".toList, none, 1⟩] false)]).displayed =
      some [⟨2, [], "closed".toList, none, 1⟩] ∧
    ((ListView.mount "t".toList [("page", "1".toList), ("q", "is:open".toList)]).run
      [ListEvent.navigate "t".toList [("page", "1".toList), ("q", "is:closed".toList)],
       ListEvent.settle 1 (FetchResult.ok [⟨2, [], "closed".toList, none, 1⟩] false)]).pending =
      [⟨JSNum.int 1, "open".toList⟩] ∧
    ((ListView.mount "t".toList [("page", "1".toList), ("q", "is:open".toList)]).run
      [ListEvent.navigate "t".toList [("page", "1".toList), ("q", "is:closed".toList)],
       ListEvent.settle 1 (FetchResult.ok [⟨2, [], "closed".toList, none, 1⟩] false),
       ListEvent.settle 0 (FetchResult.ok [⟨1, [], "open".toList, none, 1⟩] false)]).filter =
      "closed".toList ∧
    ((ListView.mount "t".toList [("page", "1".toList), ("q", "is:open".toList)]).run
      [ListEvent.navigate "t".toList [("page", "1".toList), ("q", "is:closed".toList)],
       ListEvent.settle 1 (FetchResult.ok [⟨2, [], "closed".toList, none, 1⟩] false),
       ListEvent.settle 0 (FetchResult.ok [⟨1, [], "open".toList, none, 1⟩] false)]).displayed =
      some [⟨1, [], "open".toList, none, 1⟩] := by
  decide

theorem mount_error (token : List Char) (searchParams : SearchParams)
    (h : token.isEmpty = false) : (ListView.mount token searchParams).error = none := by
  simp [ListView.mount, fetchPRs, h]

theorem step_error (s : ListView) (e : ListEvent) (hs : s.error = none)
    (he : e.clean = true) : (s.step e).error = none := by
  cases e with
  | navigate token searchParams =>
    have ht : token.isEmpty = false := by simpa [ListEvent.clean] using he
    simp only [ListView.step, ListView.navigate, fetchPRs, ht]
    split
    · exact hs
    · rfl
  | settle i result =>
    cases result with
    | ok l more =>
      simp only [ListView.step, ListView.settle]
      split
      · exact hs
      · exact hs
    | failed m => simp [ListEvent.clean] at he

/-- In a run without a failure no error is set. -/
theorem run_error (s : ListView) (events : List ListEvent) (hs : s.error = none)
    (he : ∀ e ∈ events, ListEvent.clean e = true) : (s.run events).error = none := by
  induction events generalizing s with
  | nil => exact hs
  | cons e es ih =>
    have h1 := step_error s e hs (he e (List.mem_cons_self _ _))
    exact ih (s.step e) h1 (fun x hx => he x (List.mem_cons_of_mem _ hx))

theorem prs_settle_ok (s : ListView) (i : Nat) (r : PendingFetch) (l : List PullRequest)
    (more : Bool) (h : s.pending[i]? = some r) :
    (s.settle i (FetchResult.ok l more)).prs = l := by
  rw [ListView.settle, h]

theorem displayed_settle_ok (s : ListView) (i : Nat) (r : PendingFetch) (l : List PullRequest)
    (more : Bool) (h : s.pending[i]? = some r) :
    (s.settle i (FetchResult.ok l more)).displayed =
      if s.error = none ∨ s.error = some "" then some l else none := by
  simp only [ListView.settle, h, ListView.displayed]
  by_cases h1 : s.error = none
  · simp [h1]
  · by_cases h2 : s.error = some ""
    · simp [h2]
    · simp [h1, h2]

/-- C21, amended: no fetch that settles is discarded; what it brings is applied
without a look at the page and filter it was issued for.  In every run from the
first rendering in which a token is at hand and no fetch fails, the response of
any fetch under way, when it settles, becomes the list shown, and page and
filter stay as they are; so the list shown is that of the fetch that settled
last.  In any state, a response replaces the list and is shown unless an error
is set; a failure keeps the list, sets the error and hides the list, and the
error stays set when a later response arrives, which is then not shown; a
change of the address keeps the list. -/
theorem C21_settled_fetch_is_applied (token : List Char) (searchParams : SearchParams)
    (events : List ListEvent) (i j k : Nat) (r r2 r3 : PendingFetch)
    (l l2 : List PullRequest) (more more2 : Bool) (s : ListView) (m : String)
    (htoken : token.isEmpty = false)
    (hclean : ∀ e ∈ events, ListEvent.clean e = true)
    (h : ((ListView.mount token searchParams).run events).pending[i]? = some r)
    (hs : s.pending[j]? = some r2)
    (hm : m ≠ "")
    (hk : (s.settle j (FetchResult.failed m)).pending[k]? = some r3) :
    (((ListView.mount token searchParams).run events).settle i
      (FetchResult.ok l more)).displayed = some l ∧
    (((ListView.mount token searchParams).run events).settle i
      (FetchResult.ok l more)).page = ((ListView.mount token searchParams).run events).page ∧
    (((ListView.mount token searchParams).run events).settle i
      (FetchResult.ok l more)).filter =
        ((ListView.mount token searchParams).run events).filter ∧
    (s.settle j (FetchResult.ok l more)).prs = l ∧
    (s.settle j (FetchResult.ok l more)).displayed =
      (if s.error = none ∨ s.error = some "" then some l else none) ∧
    (s.settle j (FetchResult.failed m)).prs = s.prs ∧
    (s.settle j (FetchResult.failed m)).error = some m ∧
    (s.settle j (FetchResult.failed m)).displayed = none ∧
    ((s.settle j (FetchResult.failed m)).settle k (FetchResult.ok l2 more2)).prs = l2 ∧
    ((s.settle j (FetchResult.failed m)).settle k (FetchResult.ok l2 more2)).displayed = none ∧
    (s.navigate token searchParams).prs = s.prs := by
  have herr := run_error _ events (mount_error token searchParams htoken) hclean
  have hfail : (s.settle j (FetchResult.failed m)).error = some m := by
    simp only [ListView.settle, hs]
  refine ⟨?_, ?_, ?_, ?_, displayed_settle_ok s j r2 l more hs, ?_, hfail, ?_, ?_, ?_, ?_⟩
  · rw [displayed_settle_ok _ i r l more h, if_pos (Or.inl herr)]
  · simp only [ListView.settle, h]
  · simp only [ListView.settle, h]
  · simp only [ListView.settle, hs]
  · simp only [ListView.settle, hs]
  · simp [ListView.settle, hs, ListView.displayed, hm]
  · exact prs_settle_ok _ k r3 l2 more2 hk
  · rw [displayed_settle_ok _ k r3 l2 more2 hk, hfail]
    simp [hm]
  · simp only [ListView.navigate, fetchPRs]
    split
    · rfl
    · split <;> rfl

theorem C21_settled_fetch_is_applied_witness :
    ((ListView.mount "t".toList [("page", "1".toList), ("q", "is:open".toList)]).run
      [ListEvent.navigate "t".toList [("page", "1".toList), ("q", "is:closed".toList)],
       ListEvent.settle 1 (FetchResult.ok [⟨2, [], "closed".toList, none, 1⟩] false)]).pending[0]?
      = some ⟨JSNum.int 1, "open".toList⟩ ∧
    ((ListView.mount "t".toList [("page", "1".toList), ("q", "is:open".toList)]).run
      [ListEvent.navigate "t".toList [("page", "1".toList), ("q", "is:closed".toList)],
       ListEvent.settle 1 (FetchResult.ok [⟨2, [], "closed".toList, none, 1⟩] false)]).filter =
      "closed".toList ∧
    (((ListView.mount "t".toList [("page", "1".toList), ("q", "is:open".toList)]).run
      [ListEvent.navigate "t".toList [("page", "1".toList), ("q", "is:closed".toList)],
       ListEvent.settle 1 (FetchResult.ok [⟨2, [], "closed".toList, none, 1⟩] false)]).settle 0
        (FetchResult.ok [⟨1, [], "open".toList, none, 1⟩] true)).displayed =
      some [⟨1, [], "open".toList, none, 1⟩] ∧
    (((ListView.mount "t".toList [("page", "1".toList), ("q", "is:open".toList)]).navigate
      "t".toList [("page", "1".toList), ("q", "is:closed".toList)]).settle 0
        (FetchResult.failed "Failed to fetch pull requests")).pending[0]? =
      some ⟨JSNum.int 1, "closed".toList⟩ ∧
    ((((ListView.mount "t".toList [("page", "1".toList), ("q", "is:open".toList)]).navigate
      "t".toList [("page", "1".toList), ("q", "is:closed".toList)]).settle 0
        (FetchResult.failed "Failed to fetch pull requests")).settle 0
        (FetchResult.ok [⟨2, [], "closed".toList, none, 1⟩] false)).displayed = none :=
  have key := C21_settled_fetch_is_applied "t".toList
    [("page", "1".toList), ("q", "is:open".toList)]
    [ListEvent.navigate "t".toList [("page", "1".toList), ("q", "is:closed".toList)],
     ListEvent.settle 1 (FetchResult.ok [⟨2, [], "closed".toList, none, 1⟩] false)]
    0 0 0 ⟨JSNum.int 1, "open".toList⟩ ⟨JSNum.int 1, "open".toList⟩
    ⟨JSNum.int 1, "closed".toList⟩
    [⟨1, [], "open".toList, none, 1⟩] [⟨2, [], "closed".toList, none, 1⟩] true false
    ((ListView.mount "t".toList [("page", "1".toList), ("q", "is:open".toList)]).navigate
      "t".toList [("page", "1".toList), ("q", "is:closed".toList)])
    "Failed to fetch pull requests"
    (by decide) (by decide) (by decide) (by decide) (by decide) (by decide)
  ⟨by decide, by decide, key.1, by decide, key.2.2.2.2.2.2.2.2.2.1⟩

/-! ## Task-list items: claims -/

/-- C22: a list item whose task marker is set, checked true or false, is
rendered without a bullet and with a read-only checkbox that shows the marker;
a list item without a marker, checked null or undefined, is rendered as an
ordinary item with its props and without a checkbox. -/
theorem C22_task_list_item {Props Children : Type} (b : Bool) (props : Props)
    (children : Children) :
    li (Checked.bool b) props children =
      { className := some "task-list-item", listStyle := some "none",
        marginLeft := some "-1.5em",
        input := some { type := "checkbox", checked := Checked.bool b, readOnly := true,
                        accentColor := "#1f883d" },
        props := none, children := children } ∧
    li Checked.null props children =
      { className := none, listStyle := none, marginLeft := none, input := none,
        props := some props, children := children } ∧
    li Checked.undefined props children =
      { className := none, listStyle := none, marginLeft := none, input := none,
        props := some props, children := children } := by
  refine ⟨?_, ?_, ?_⟩
  · simp [li, TaskListItem]
  · simp [li]
  · simp [li]

/-! ## The filter expression: where it matches -/

/-- C23: the filter is read from a match of "is:" and a word anywhere in q: it is
the longest run of word characters after the leftmost "is:" that has a word
character right after it, and "open" when q is absent or has no such
occurrence; so "this:closed foo" gives "closed", "is:open-ish" gives "open"
and "is: is:all" gives "all". -/
theorem C23_leftmost_match_anywhere (q : List Char) (k : Nat) :
    parseQueryFilter none = "open".toList ∧
    ((∀ j < q.length, occursAt q j = false) → parseQueryFilter (some q) = "open".toList) ∧
    (occursAt q k = true → (∀ j < k, occursAt q j = false) →
      parseQueryFilter (some q) = (q.drop (k + 3)).takeWhile isWordChar) ∧
    parseQueryFilter (some "this:closed foo".toList) = "closed".toList ∧
    parseQueryFilter (some "is:open-ish".toList) = "open".toList ∧
    parseQueryFilter (some "is: is:all".toList) = "all".toList := by
  refine ⟨rfl, ?_, ?_, by decide, by decide, by decide⟩
  · intro h
    cases q with
    | nil => rfl
    | cons c cs => simp only [parseQueryFilter, matchIsWord_of_no_occurrence _ h]
  · intro h hlt
    cases q with
    | nil => rw [occursAt_nil] at h; exact absurd h (by decide)
    | cons c cs => simp only [parseQueryFilter, matchIsWord_of_leftmost _ k h hlt]

theorem C23_leftmost_match_anywhere_witness :
    (∀ j < "closed is".toList.length, occursAt "closed is".toList j = false) ∧
    parseQueryFilter (some "closed is".toList) = "open".toList ∧
    occursAt "is: this:all_1 is:open".toList 6 = true ∧
    (∀ j < 6, occursAt "is: this:all_1 is:open".toList j = false) ∧
    parseQueryFilter (some "is: this:all_1 is:open".toList) = "all_1".toList :=
  ⟨by decide,
    (C23_leftmost_match_anywhere "closed is".toList 0).2.1 (by decide),
    by decide, by decide,
    (C23_leftmost_match_anywhere "is: this:all_1 is:open".toList 6).2.2.1 (by decide)
      (by decide)⟩

/-! ## Relative dates: claims -/

/-- C24: for instants in integer milliseconds, the result of formatDate depends
on date and now only through d, the floor of (now - date) / 86400000: it is
"today" for d = 0, "yesterday" for d = 1, d followed by " days ago" for every
other d below 30, and the locale date only for d of at least 30; d is negative
exactly for a date after now, which therefore reads as a negative number of
days ago. -/
theorem C24_formatDate_by_days (toLocaleDateString : JSNum → List Char) (date now : Int) :
    formatDate toLocaleDateString (JSNum.int date) now =
      (if Int.fdiv (now - date) 86400000 = 0 then "today".toList
       else if Int.fdiv (now - date) 86400000 = 1 then "yesterday".toList
       else if Int.fdiv (now - date) 86400000 < 30 then
         (JSNum.int (Int.fdiv (now - date) 86400000)).toString ++ " days ago".toList
       else toLocaleDateString (JSNum.int date)) ∧
    (Int.fdiv (now - date) 86400000 < 0 ↔ now < date) ∧
    (now < date →
      formatDate toLocaleDateString (JSNum.int date) now =
        '-' :: natToString (Int.fdiv (now - date) 86400000).natAbs ++ " days ago".toList) ∧
    formatDate toLocaleDateString (JSNum.int 1000) 999 = "-1 days ago".toList ∧
    formatDate toLocaleDateString (JSNum.int 0) (29 * 86400000 + 86399999) =
      "29 days ago".toList ∧
    formatDate toLocaleDateString (JSNum.int 0) (30 * 86400000) =
      toLocaleDateString (JSNum.int 0) := by
  have hform : formatDate toLocaleDateString (JSNum.int date) now =
      (if Int.fdiv (now - date) 86400000 = 0 then "today".toList
       else if Int.fdiv (now - date) 86400000 = 1 then "yesterday".toList
       else if Int.fdiv (now - date) 86400000 < 30 then
         (JSNum.int (Int.fdiv (now - date) 86400000)).toString ++ " days ago".toList
       else toLocaleDateString (JSNum.int date)) := by
    simp only [formatDate, JSNum.sub, JSNum.floorDiv, JSNum.strictEq, JSNum.lt,
      decide_eq_true_eq]
    rfl
  have hneg : Int.fdiv (now - date) 86400000 < 0 ↔ now < date := by
    rw [Int.fdiv_eq_ediv _ (by decide)]
    omega
  refine ⟨hform, hneg, ?_, rfl, rfl, rfl⟩
  intro hlt
  have hd := hneg.2 hlt
  rw [hform, if_neg (by omega), if_neg (by omega), if_pos (by omega)]
  simp only [JSNum.toString, if_pos hd, List.cons_append]

end GheIssueViewer
